import Mathlib

/-!
# Verification of the td-secret realtime collaboration backend

This file contains a shallow embedding, in Lean 4, of the coordination core of
the td-secret backend (worker selection, transport connect idempotence,
messaging idempotency, per-job message queues, session registry, the
active-speaker engine, the dominant-speaker handler and the audio side-tap),
together with theorems that settle the specification claims about them.

Definitions are translated directly from the TypeScript sources:

* `Workers`        — `WorkerManagerService` (worker.service, `unnamed/part_018`)
* `MediaTransport` — `TransportService.connectTransport` (`unnamed/part_009`)
* `Messaging`      — `ChatGateway.handleContractMessageSend` and
                     `MessageProducerService.queueMessage`
* `JobQueue`       — `JobMessageQueue` (`utils/socket-helpers.util.ts`)
* `Session`        — `UserSessionCacheService` (`session.service.ts`)
* `Speakers`       — `ActiveSpeakersService.updateActiveSpeakers` and
                     `DominantSpeakerService.handleNewDominantSpeaker`
* `STT`            — `StreamingSTTService` (`streaming-stt.service.ts`)

JavaScript machine integers / numbers are modelled as `Nat`/`Int` with explicit
`% 2 ^ 32` where 32-bit overflow matters; JS scores (doubles, possibly
`Infinity`) are modelled as `WithTop ℚ`; fallible code returns `Except`.
-/

namespace TdSecret

/-! ## Definitions -/

/-! ### Workers: `WorkerManagerService` (worker selection, claim C7) -/

namespace Workers

/-- A mediasoup worker record (`WorkerRecord` in `worker.types`).  `score` is
`none` before the first sample; a sampling error stores `+∞` (`⊤`). -/
structure WorkerRecord where
  id : Nat
  pid : Nat
  online : Bool
  routers : Nat
  transports : Nat
  score : Option (WithTop ℚ)
deriving DecidableEq, Repr

/-- `opts.overloadScoreThreshold = 0.8` (written as the normalized rational
`4/5` so that comparisons reduce by `decide`). -/
def overloadScoreThreshold : ℚ := Rat.mk' 4 5 (by decide) (by decide)

/-- `w.score ?? 0` as used by `isOverloaded`. -/
def scoreOrZero (w : WorkerRecord) : WithTop ℚ := w.score.getD 0

/-- `score ?? Infinity` as used by `leastLoaded`. -/
def scoreOrTop (w : WorkerRecord) : WithTop ℚ := w.score.getD ⊤

/-- `isOverloaded(w)`: `(w.score ?? 0) >= overloadScoreThreshold || !w.online`. -/
def isOverloaded (w : WorkerRecord) : Bool :=
  decide ((overloadScoreThreshold : WithTop ℚ) ≤ scoreOrZero w) || !w.online

/-- The `reduce` in `leastLoaded`: running minimum by `score ?? Infinity`,
strict `<`, initial accumulator = first element. -/
def leastLoadedAux (best : WorkerRecord) : List WorkerRecord → WorkerRecord
  | [] => best
  | w :: ws => leastLoadedAux (if scoreOrTop w < scoreOrTop best then w else best) ws

/-- FNV-1a offset basis `0x811c9dc5`. -/
def fnvOffset : Nat := 0x811c9dc5

/-- FNV-1a prime `0x01000193`. -/
def fnvPrime : Nat := 0x01000193

/-- The loop of `hash32`: `h ^= charCode; h = Math.imul(h, prime)`, on 32-bit
words modelled as `Nat` mod `2 ^ 32`. -/
def hash32Aux (h : Nat) : List Nat → Nat
  | [] => h
  | c :: cs => hash32Aux (((h ^^^ c) * fnvPrime) % 2 ^ 32) cs

/-- `hash32(str)`: 32-bit FNV-1a over the character codes of `str`
(room ids are ASCII, where `charCodeAt` coincides with the scalar value). -/
def hash32 (s : String) : Nat :=
  hash32Aux fnvOffset (s.toList.map Char.toNat)

/-- `pickWorkerForRoom(roomId)`: sticky index `hash32(roomId) % live.length`
into the live workers, falling back to the least-loaded live worker when the
chosen one is overloaded; error when no live worker exists. -/
def pickWorkerForRoom (workers : List WorkerRecord) (roomId : String) :
    Except String WorkerRecord :=
  match workers.filter (fun w => w.online) with
  | [] => .error "No mediasoup workers available"
  | w :: ws =>
    let live := w :: ws
    let chosen := live.get ⟨hash32 roomId % live.length, Nat.mod_lt _ (Nat.succ_pos _)⟩
    if isOverloaded chosen then .ok (leastLoadedAux w ws) else .ok chosen

/-- A concrete online worker used as a witness input. -/
def w0example : WorkerRecord :=
  { id := 0, pid := 11, online := true, routers := 0, transports := 0,
    score := some ((0 : ℚ) : WithTop ℚ) }

end Workers

/-! ### MediaTransport: `TransportService.connectTransport` (claim C6) -/

namespace MediaTransport

/-- mediasoup DTLS states. -/
inductive DtlsState
  | new
  | connecting
  | connected
  | closed
  | failed
deriving DecidableEq, Repr

/-- A WebRTC transport handle.  `connectCount` counts how many times
`transport.connect` has been issued to the SFU. -/
structure WebRtcTransport where
  id : String
  dtlsState : DtlsState
  connectCount : Nat
deriving DecidableEq, Repr

/-- Modelled from the spec of the underlying SFU library (an out-of-scope
collaborator): `transport.connect({dtlsParameters})` starts the DTLS
handshake, so immediately after the call the transport's `dtlsState` is
`connecting`; we also count the issued connect. -/
def transportConnect (t : WebRtcTransport) : WebRtcTransport :=
  { t with dtlsState := .connecting, connectCount := t.connectCount + 1 }

/-- A downstream transport entry of a client (only the fields
`connectTransport` reads). -/
structure DownstreamTransport where
  associatedAudioPid : Option String
  transport : WebRtcTransport
deriving DecidableEq, Repr

/-- The client fields used by `connectTransport`. -/
structure Client where
  upstreamTransport : Option WebRtcTransport
  downstreamTransports : List DownstreamTransport
deriving DecidableEq, Repr

inductive TransportRole
  | producer
  | consumer
deriving DecidableEq, Repr

/-- `ConnectTransportDto` (dtlsParameters are opaque and omitted). -/
structure ConnectTransportDto where
  type : TransportRole
  audioPid : Option String
deriving DecidableEq, Repr

/-- `transport.dtlsState === 'connected' || transport.dtlsState === 'connecting'`. -/
def dtlsConnectedOrConnecting (t : WebRtcTransport) : Bool :=
  t.dtlsState == .connected || t.dtlsState == .connecting

/-- The consumer branch of `connectTransport`: find the first downstream
transport with `associatedAudioPid === audioPid`; skip the connect if its DTLS
state is `connected`/`connecting`, otherwise issue `connect`.  Error when no
downstream transport matches. -/
def connectConsumer : List DownstreamTransport → Option String →
    Except String (List DownstreamTransport)
  | [], _ => .error "Downstream transport not found"
  | t :: ts, apid =>
    if t.associatedAudioPid == apid then
      if dtlsConnectedOrConnecting t.transport then .ok (t :: ts)
      else .ok ({ t with transport := transportConnect t.transport } :: ts)
    else (connectConsumer ts apid).map (fun ts' => t :: ts')

/-- `connectTransport(client, connectData)`. -/
def connectTransport (c : Client) (d : ConnectTransportDto) :
    Except String (String × Client) :=
  match d.type with
  | .producer =>
    match c.upstreamTransport with
    | none => .error "Upstream transport not found"
    | some t =>
      if dtlsConnectedOrConnecting t then .ok ("success", c)
      else .ok ("success", { c with upstreamTransport := some (transportConnect t) })
  | .consumer =>
    (connectConsumer c.downstreamTransports d.audioPid).map
      (fun ds => ("success", { c with downstreamTransports := ds }))

/-- The `find` in the consumer branch: first downstream transport with
`associatedAudioPid === audioPid`. -/
def lookupDownstream : List DownstreamTransport → Option String → Option WebRtcTransport
  | [], _ => none
  | t :: ts, apid =>
    if t.associatedAudioPid == apid then some t.transport else lookupDownstream ts apid

/-- The transport a `connectTransport` call operates on. -/
def lookupTransport (c : Client) (d : ConnectTransportDto) : Option WebRtcTransport :=
  match d.type with
  | .producer => c.upstreamTransport
  | .consumer => lookupDownstream c.downstreamTransports d.audioPid

/-- Total number of connects issued across all of a client's transports. -/
def sumConnects (l : List DownstreamTransport) : Nat :=
  (l.map (fun t => t.transport.connectCount)).sum

def totalConnects (c : Client) : Nat :=
  (match c.upstreamTransport with
   | some t => t.connectCount
   | none => 0) + sumConnects c.downstreamTransports

/-- A concrete client used as a witness input. -/
def clientExample : Client :=
  { upstreamTransport := some { id := "up", dtlsState := .new, connectCount := 0 },
    downstreamTransports := [] }

def producerConnectDto : ConnectTransportDto :=
  { type := .producer, audioPid := none }

end MediaTransport

/-! ### Messaging: idempotent send (`ChatGateway.handleContractMessageSend` +
`MessageProducerService.queueMessage`, claim C1) -/

namespace Messaging

structure EncryptedContent where
  body : String
deriving DecidableEq, Repr

/-- `ChatMessageSendPayload` (fields the handler reads; a missing/empty JS
string is modelled as `""`, matching the falsy check `!jobId`). -/
structure ChatMessageSendPayload where
  id : String
  jobId : String
  timestamp : Nat
  encryptedContent : EncryptedContent
  mimeType : String
  merkleLeaf : String
deriving DecidableEq, Repr

/-- The `messageData` envelope built by the handler (`metadata` is always
`{}` and omitted). -/
structure Message where
  type : String
  timestamp : Nat
  id : String
  senderId : String
  encryptedContent : EncryptedContent
  jobId : String
  mimeType : String
  merkleLeaf : String
deriving DecidableEq, Repr

/-- One `msg:idem:{id}` Redis entry: stored `{jobId}` value and its expiry
instant (`setex` with `IDEMPOTENCY_TTL = 3600` seconds). -/
structure IdemEntry where
  key : String
  storedJobId : String
  expiresAt : Nat
deriving DecidableEq, Repr

/-- Redis + BullMQ state seen by `queueMessage`: the idempotency keys and the
durable queue contents (`jobId ↦ payload`, where BullMQ's `jobId` option is the
message id). -/
structure QueueState where
  idem : List IdemEntry
  jobs : List (String × Message)
deriving DecidableEq, Repr

/-- `redis.get(key)` at instant `now`: an entry is visible while it has not
expired. -/
def redisGet (st : QueueState) (key : String) (now : Nat) : Option String :=
  (st.idem.find? (fun e => e.key == key && decide (now < e.expiresAt))).map
    (fun e => e.storedJobId)

/-- `redis.setex(key, IDEMPOTENCY_TTL, JSON.stringify({jobId}))`. -/
def redisSetex (st : QueueState) (key : String) (ttl : Nat) (storedJobId : String)
    (now : Nat) : QueueState :=
  { st with idem := ⟨key, storedJobId, now + ttl⟩ :: st.idem.filter (fun e => e.key != key) }

/-- `IDEMPOTENCY_TTL = 3600` (seconds). -/
def idempotencyTTL : Nat := 3600

/-- `MessageProducerService.queueMessage(data)`: idempotency check on
`msg:idem:{data.id}`; on a miss, add the job (BullMQ `jobId := data.id`) and
set the idempotency key.  Returns `{jobId, isDuplicate}` and the new state. -/
def queueMessage (st : QueueState) (data : Message) (now : Nat) :
    (String × Bool) × QueueState :=
  match redisGet st data.id now with
  | some cachedJobId => ((cachedJobId, true), st)
  | none =>
    let st1 : QueueState := { st with jobs := st.jobs ++ [(data.id, data)] }
    let st2 := redisSetex st1 data.id idempotencyTTL data.id now
    ((data.id, false), st2)

/-- Acks returned by `handleContractMessageSend` (the two `err`/`ok` wrappers
and the bare success object of the source are collapsed into one sum type). -/
inductive Ack
  | errAck (error : String)
  | okDuplicate (messageId : String)
  | successAck (messageId : String) (timestamp : Nat)
deriving DecidableEq, Repr

/-- One socket broadcast: room, event name, payload. -/
structure Broadcast where
  room : String
  event : String
  message : Message
deriving DecidableEq, Repr

/-- The `messageData` construction in `handleContractMessageSend`. -/
def mkMessage (payload : ChatMessageSendPayload) (userSub : String) : Message :=
  { type := "TEXT", timestamp := payload.timestamp, id := payload.id,
    senderId := userSub, encryptedContent := payload.encryptedContent,
    jobId := payload.jobId, mimeType := payload.mimeType,
    merkleLeaf := payload.merkleLeaf }

/-- `ChatGateway.handleContractMessageSend`: validates the payload, then (under
the job lock, which serializes calls and is left implicit in this sequential
model) enqueues via `queueMessage`; a duplicate yields the
`{delivered, duplicate, messageId}` ack and no broadcast, otherwise
`contract:message.new` is emitted to the `jobId` room and a success ack is
returned.  Result: (ack, new state, broadcasts of this call). -/
def handleContractMessageSend (st : QueueState) (payload : ChatMessageSendPayload)
    (userSub : String) (now : Nat) : Ack × QueueState × List Broadcast :=
  if payload.jobId = "" then (.errAck "jobId is required", st, [])
  else if payload.encryptedContent.body = "" then (.errAck "Message cannot be empty", st, [])
  else
    let messageData := mkMessage payload userSub
    let res := queueMessage st messageData now
    if res.1.2 then (.okDuplicate messageData.id, res.2, [])
    else (.successAck messageData.id messageData.timestamp, res.2,
      [⟨payload.jobId, "contract:message.new", messageData⟩])

/-- A concrete payload used as a witness input. -/
def payloadExample : ChatMessageSendPayload :=
  { id := "m1", jobId := "j1", timestamp := 10,
    encryptedContent := ⟨"x"⟩, mimeType := "text/plain", merkleLeaf := "leaf" }

end Messaging

/-! ### Session: `UserSessionCacheService` (single socket per user, claim C3) -/

namespace Session

/-- The Redis keys touched by the session registry: `user:sockets:{u}` sets and
`socket:user:{s}` strings, modelled as association lists. -/
structure SessionState where
  userSockets : List (String × List String)
  socketUser : List (String × String)
deriving DecidableEq, Repr

/-- `smembers(user:sockets:{u})`. -/
def smembers (st : SessionState) (u : String) : List String :=
  ((st.userSockets.find? (fun e => e.1 == u)).map (fun e => e.2)).getD []

/-- `srem(user:sockets:{u}, s)` (removes the member; no-op on a missing key). -/
def sremSocket (st : SessionState) (u s : String) : SessionState :=
  { st with userSockets :=
      st.userSockets.map (fun e => if e.1 == u then (e.1, e.2.filter (fun x => x != s)) else e) }

/-- `sadd(user:sockets:{u}, s)`. -/
def saddSocket (st : SessionState) (u s : String) : SessionState :=
  if st.userSockets.any (fun e => e.1 == u) then
    { st with userSockets :=
        st.userSockets.map (fun e =>
          if e.1 == u then (e.1, if e.2.contains s then e.2 else e.2 ++ [s]) else e) }
  else { st with userSockets := st.userSockets ++ [(u, [s])] }

/-- `del(socket:user:{s})`. -/
def delSocketUser (st : SessionState) (s : String) : SessionState :=
  { st with socketUser := st.socketUser.filter (fun e => e.1 != s) }

/-- `set(socket:user:{s}, u)`. -/
def setSocketUser (st : SessionState) (s u : String) : SessionState :=
  { st with socketUser := (s, u) :: st.socketUser.filter (fun e => e.1 != s) }

/-- `get(socket:user:{s})`. -/
def getSocketUser (st : SessionState) (s : String) : Option String :=
  (st.socketUser.find? (fun e => e.1 == s)).map (fun e => e.2)

/-- `mapUserToSocket(userId, socketId)`: snapshot the existing socket ids, then
run one pipeline that (a) for every existing id other than `socketId` removes
it from the user's set and deletes its reverse mapping, (b) adds `socketId` to
the set and (c) sets the reverse mapping. -/
def mapUserToSocket (st : SessionState) (userId socketId : String) : SessionState :=
  let existing := smembers st userId
  let st1 := existing.foldl
    (fun acc e => if e != socketId then delSocketUser (sremSocket acc userId e) e else acc) st
  setSocketUser (saddSocket st1 userId socketId) socketId userId

/-- `unmapSocket(socketId)`. -/
def unmapSocket (st : SessionState) (socketId : String) : SessionState :=
  match getSocketUser st socketId with
  | none => st
  | some u => delSocketUser (sremSocket st u socketId) socketId

/-- The single-socket invariant: at any instant at most one socket id is
mapped to a given user. -/
def AtMostOneSocket (st : SessionState) : Prop :=
  ∀ u x y, x ∈ smembers st u → y ∈ smembers st u → x = y

/-- A concrete session state used as a witness input: user `u1` currently has
the stale socket `s1` bound. -/
def sessionExample : SessionState :=
  { userSockets := [("u1", ["s1"])], socketUser := [("s1", "u1")] }

end Session

/-! ### JobQueue: `JobMessageQueue` (per-job FIFO, claims C2 and C9) -/

namespace JobQueue

/-- A queued message: its timestamp and an identifier for its task/waiter
(the `resolve`/`reject` pair of the enqueue promise). -/
structure QueuedMessage where
  timestamp : Nat
  taskId : Nat
deriving DecidableEq, Repr

/-- Stable insertion of a new element into a sorted-by-timestamp prefix:
the element goes after every entry with a smaller-or-equal timestamp, which is
where JavaScript's stable `Array.sort` with comparator
`(a, b) => a.timestamp - b.timestamp` places it. -/
def insertByTs (q : QueuedMessage) : List QueuedMessage → List QueuedMessage
  | [] => [q]
  | r :: rs => if q.timestamp < r.timestamp then q :: r :: rs else r :: insertByTs q rs

/-- `queue.sort((a, b) => a.timestamp - b.timestamp)` (a stable sort). -/
def sortByTs (l : List QueuedMessage) : List QueuedMessage :=
  l.foldl (fun acc q => insertByTs q acc) []

/-- The observable state of one `JobMessageQueue`, together with a log of what
happened: `current` is the task the runner is awaiting, `dispatched` the
dispatch log in order, `warnings` the logged late arrivals, `settled` the
`(taskId, resolved?)` outcomes delivered to waiters. -/
structure QueueState where
  queue : List QueuedMessage
  processing : Bool
  lastProcessedTimestamp : Nat
  current : Option QueuedMessage
  dispatched : List QueuedMessage
  warnings : List QueuedMessage
  settled : List (Nat × Bool)
deriving DecidableEq, Repr

/-- The head of `processNext`: if not `processing` and the queue is nonempty,
shift the head, set `processing`, log the out-of-order warning when
`timestamp < lastProcessedTimestamp`, and start the task. -/
def tryDispatch (s : QueueState) : QueueState :=
  if s.processing then s
  else
    match s.queue with
    | [] => s
    | h :: rest =>
      { s with
        queue := rest
        processing := true
        current := some h
        dispatched := s.dispatched ++ [h]
        warnings :=
          if h.timestamp < s.lastProcessedTimestamp then s.warnings ++ [h] else s.warnings }

/-- External events: an `enqueue(timestamp, task)` call, or the completion of
the currently running task (`ok = true`: the awaited task returned, `ok =
false`: it threw). -/
inductive QueueEvent
  | enqueue (timestamp taskId : Nat)
  | finish (ok : Bool)
deriving DecidableEq, Repr

/-- One step of the queue.  `enqueue` pushes, re-sorts by timestamp and calls
`processNext`.  `finish` is the continuation of `processNext` after `await
task()`: on success `lastProcessedTimestamp := max(last, timestamp)` and the
waiter is resolved, on a throw the waiter is rejected and the timestamp is not
advanced; the `finally` clears `processing` and `processNext` runs again. -/
def queueStep (s : QueueState) : QueueEvent → QueueState
  | .enqueue ts tid => tryDispatch { s with queue := sortByTs (s.queue ++ [⟨ts, tid⟩]) }
  | .finish ok =>
    match s.current with
    | none => s
    | some c =>
      tryDispatch { s with
        processing := false
        current := none
        lastProcessedTimestamp :=
          if ok then max s.lastProcessedTimestamp c.timestamp else s.lastProcessedTimestamp
        settled := s.settled ++ [(c.taskId, ok)] }

/-- A fresh `JobMessageQueue`. -/
def initQueue : QueueState :=
  { queue := [], processing := false, lastProcessedTimestamp := 0, current := none,
    dispatched := [], warnings := [], settled := [] }

def runFrom (s : QueueState) (tr : List QueueEvent) : QueueState :=
  tr.foldl queueStep s

/-- Run a trace of events against a fresh queue. -/
def runTrace (tr : List QueueEvent) : QueueState :=
  runFrom initQueue tr

/-- Timestamps of the dispatch log. -/
def dispatchedTs (s : QueueState) : List Nat :=
  s.dispatched.map (fun q => q.timestamp)

/-- `l` is non-decreasing. -/
def chronological (l : List Nat) : Prop :=
  l.Chain' (fun a b => a ≤ b)

/-- The trace of scenario S3: a task with timestamp 200 is enqueued and starts
at once; a task with timestamp 100 arrives while it runs; both complete. -/
def lateArrivalTrace : List QueueEvent :=
  [.enqueue 200 0, .enqueue 100 1, .finish true, .finish true]

/-- A concrete queue state used as a witness input for C9: task 0 (timestamp
200) is in flight and task 1 (timestamp 100) is pending. -/
def failingTaskState : QueueState :=
  { queue := [⟨100, 1⟩], processing := true, lastProcessedTimestamp := 0,
    current := some ⟨200, 0⟩, dispatched := [⟨200, 0⟩], warnings := [], settled := [] }

/-- A concrete idle queue state used as a witness input for the late-arrival
part of C2: a task with timestamp 100 is pending after timestamp 200 was
already processed. -/
def lateArrivalState : QueueState :=
  { queue := [⟨100, 1⟩], processing := false, lastProcessedTimestamp := 200,
    current := none, dispatched := [], warnings := [], settled := [] }

end JobQueue

/-! ### STT: `StreamingSTTService` (audio side-tap, claims C8 and C10) -/

namespace STT

/-! #### Segment processing (`handleFileEvent`, claim C8) -/

/-- The per-session segment-processing state of `handleFileEvent` plus a log:
`stored` records the segment indexes whose transcriptions were stored and
broadcast, `dispatches` records every invocation of the transcription worker
(segment index, in order).  `lastProcessedSegment` starts at `-1`. -/
structure SegState where
  lastProcessedSegment : Int
  processingSegments : List Nat
  stored : List Nat
  dispatches : List Nat
deriving DecidableEq, Repr

/-- Events of the segment pipeline: `dispatch i` is the loop body of
`handleFileEvent` reaching a parsed segment index `i` (guarded by
`i > lastProcessedSegment && !processingSegments.has(i)`); `outcome i ok` is
the awaited Whisper result for `i` (`ok = false` covers process failure,
timeout, and unparsable output, all of which resolve `null`). -/
inductive SegEvent
  | dispatch (i : Nat)
  | outcome (i : Nat) (ok : Bool)
deriving DecidableEq, Repr

/-- One step of `handleFileEvent`'s segment processing. -/
def segStep (s : SegState) : SegEvent → SegState
  | .dispatch i =>
    if (i : Int) > s.lastProcessedSegment ∧ i ∉ s.processingSegments then
      { s with
        processingSegments := s.processingSegments ++ [i]
        dispatches := s.dispatches ++ [i] }
    else s
  | .outcome i ok =>
    if i ∈ s.processingSegments then
      if ok then
        { s with
          stored := s.stored ++ [i]
          lastProcessedSegment := max s.lastProcessedSegment (i : Int)
          processingSegments := s.processingSegments.filter (fun j => j != i) }
      else { s with processingSegments := s.processingSegments.filter (fun j => j != i) }
    else s

/-- A fresh session's segment state (`lastProcessedSegment = -1`). -/
def initSeg : SegState :=
  { lastProcessedSegment := -1, processingSegments := [], stored := [], dispatches := [] }

def runSeg (tr : List SegEvent) : SegState :=
  tr.foldl segStep initSeg

/-- The trace refuting at-most-once processing: one file event dispatches
segment 0, Whisper fails for it, and a later file event (fired when segment 1
closes and the segment list is re-read in full) dispatches segment 0 again. -/
def retryTrace : List SegEvent :=
  [.dispatch 0, .outcome 0 false, .dispatch 0]

/-! #### Session lifecycle (`startTranscription` / `stopTranscription`,
claim C10) -/

/-- The fields of an `RTPSession` relevant to the lifecycle claims. -/
structure RTPSession where
  participantId : String
  roomId : String
  producerId : String
  rtpPort : Nat
  rtcpPort : Nat
  lastProcessedSegment : Int
  isActive : Bool
deriving DecidableEq, Repr

/-- The service state touched by `startTranscription`/`stopTranscription`:
the session map keyed by participantId, the port pool, and counters logging
every plain-transport creation and every spawned FFmpeg segmenter. -/
structure STTState where
  rtpSessions : List (String × RTPSession)
  availablePorts : List Nat
  usedPorts : List Nat
  createdTransports : Nat
  spawnedSegmenters : Nat
deriving DecidableEq, Repr

/-- `rtpSessions.get(participantId)`. -/
def getSession (st : STTState) (participantId : String) : Option RTPSession :=
  (st.rtpSessions.find? (fun e => e.1 == participantId)).map (fun e => e.2)

/-- `rtpSessions.set(participantId, session)`. -/
def setSession (st : STTState) (participantId : String) (sess : RTPSession) : STTState :=
  { st with rtpSessions :=
      (participantId, sess) :: st.rtpSessions.filter (fun e => e.1 != participantId) }

/-- `rtpSessions.delete(participantId)`. -/
def deleteSession (st : STTState) (participantId : String) : STTState :=
  { st with rtpSessions := st.rtpSessions.filter (fun e => e.1 != participantId) }

/-- Remove a port from the free pool (`availablePorts.delete(port)`). -/
def removeAvailable (st : STTState) (port : Nat) : STTState :=
  { st with availablePorts := st.availablePorts.filter (fun p => p != port) }

/-- Mark a probed consecutive pair as used. -/
def allocatePair (st : STTState) (p1 p2 : Nat) : STTState :=
  { st with
    availablePorts := (st.availablePorts.filter (fun p => p != p1)).filter (fun p => p != p2)
    usedPorts := st.usedPorts ++ [p1, p2] }

/-- `releasePort(port)`: return a used port to the free pool. -/
def releasePort (st : STTState) (port : Nat) : STTState :=
  if st.usedPorts.contains port then
    { st with
      usedPorts := st.usedPorts.filter (fun p => p != port)
      availablePorts := st.availablePorts ++ [port] }
  else st

/-- The scan loop of `getAvailablePortPair` over the sorted free-port
snapshot: find two consecutive entries, probe both on the loopback
(`sysAvail` is the system's answer); on success allocate, otherwise drop the
unavailable port(s) from the pool and continue. -/
def scanPairs (st : STTState) (sysAvail : Nat → Bool) :
    List Nat → Except String (Nat × Nat × STTState)
  | [] => .error "No available port pairs found - all ports in pool are in use or fragmented"
  | [_] => .error "No available port pairs found - all ports in pool are in use or fragmented"
  | p1 :: p2 :: rest =>
    if p2 = p1 + 1 then
      if sysAvail p1 && sysAvail p2 then
        .ok (p1, p2, allocatePair st p1 p2)
      else
        let st1 := if sysAvail p1 then st else removeAvailable st p1
        let st2 := if sysAvail p2 then st1 else removeAvailable st1 p2
        scanPairs st2 sysAvail (p2 :: rest)
    else scanPairs st sysAvail (p2 :: rest)

/-- `getAvailablePortPair()`. -/
def getAvailablePortPair (st : STTState) (sysAvail : Nat → Bool) :
    Except String (Nat × Nat × STTState) :=
  if st.availablePorts.length < 2 then .error "Not enough available ports in pool"
  else scanPairs st sysAvail (st.availablePorts.mergeSort (fun a b => a ≤ b))

/-- The room fields `startTranscription` checks on the client. -/
structure RoomRef where
  roomId : String
  routerPresent : Bool
deriving DecidableEq, Repr

/-- The client fields `startTranscription` reads. -/
structure Client where
  userId : String
  room : Option RoomRef
deriving DecidableEq, Repr

/-- `startTranscription(client, producerId)`: fail when the client has no room
or no router; return unchanged (no port allocation, no transport, no
segmenter) when a session for the participant is already active; otherwise
allocate a consecutive port pair, create the plain transport, spawn the
segmenter and register the session under the participant id. -/
def startTranscription (st : STTState) (c : Client) (producerId : String)
    (sysAvail : Nat → Bool) : Except String STTState :=
  match c.room with
  | none => .error "Client not in a room or router not available"
  | some r =>
    if r.routerPresent = false then .error "Client not in a room or router not available"
    else if (getSession st c.userId).isSome then .ok st
    else
      match getAvailablePortPair st sysAvail with
      | .error e => .error e
      | .ok (rtpPort, rtcpPort, st1) =>
        let st2 := { st1 with createdTransports := st1.createdTransports + 1 }
        let sess : RTPSession :=
          { participantId := c.userId, roomId := r.roomId, producerId := producerId,
            rtpPort := rtpPort, rtcpPort := rtcpPort,
            lastProcessedSegment := -1, isActive := true }
        let st3 := { st2 with spawnedSegmenters := st2.spawnedSegmenters + 1 }
        .ok (setSession st3 c.userId sess)

/-- `stopTranscription(participantId)`: no-op when no session is active;
otherwise release both ports and drop the session. -/
def stopTranscription (st : STTState) (participantId : String) : STTState :=
  match getSession st participantId with
  | none => st
  | some sess =>
    deleteSession (releasePort (releasePort st sess.rtpPort) sess.rtcpPort) participantId

/-- A concrete service state used as a witness input for C10: participant `p1`
already has an active session on ports 60000/60001. -/
def sttStateExample : STTState :=
  { rtpSessions := [("p1",
      { participantId := "p1", roomId := "r1", producerId := "prodA",
        rtpPort := 60000, rtcpPort := 60001, lastProcessedSegment := -1,
        isActive := true })],
    availablePorts := [60002, 60003], usedPorts := [60000, 60001],
    createdTransports := 1, spawnedSegmenters := 1 }

/-- The client of participant `p1`, inside room `r1` with a live router. -/
def clientP1 : Client :=
  { userId := "p1", room := some { roomId := "r1", routerPresent := true } }

end STT

/-! ### Speakers: the active-speaker engine and the dominant-speaker handler
(`ActiveSpeakersService.updateActiveSpeakers`,
`DominantSpeakerService.handleNewDominantSpeaker`, claims C4 and C5) -/

namespace Speakers

/-- A producer handle (id, `closed`, `paused`). -/
structure MediaObj where
  id : String
  closed : Bool
  paused : Bool
deriving DecidableEq, Repr

/-- A consumer handle (`producerId`, `closed`, `paused`). -/
structure Consumer where
  producerId : String
  closed : Bool
  paused : Bool
deriving DecidableEq, Repr

/-- The stream-kind slots of `client.producer` the engine reads. -/
structure Producers where
  audio : Option MediaObj
  video : Option MediaObj
  screenAudio : Option MediaObj
  screenVideo : Option MediaObj
deriving DecidableEq, Repr

/-- A downstream transport with its audio/video consumers
(`t.audio` / `t.video` in the source's dynamic-property style). -/
structure DownstreamTransport where
  associatedAudioPid : Option String
  audio : Option Consumer
  video : Option Consumer
deriving DecidableEq, Repr

structure Client where
  userId : String
  socketId : String
  displayName : String
  producer : Producers
  downstreamTransports : List DownstreamTransport
deriving DecidableEq, Repr

structure Room where
  roomId : String
  routerRtpCapabilities : String
  activeSpeakerList : List String
  clients : List Client
deriving DecidableEq, Repr

def pauseConsumer (a : Consumer) : Consumer := { a with paused := true }

def resumeConsumer (a : Consumer) : Consumer := { a with paused := false }

def pauseProducer (m : MediaObj) : MediaObj := { m with paused := true }

def resumeProducer (m : MediaObj) : MediaObj := { m with paused := false }

/-- The muted branch's downstream walk: pause the first open audio consumer
whose `producerId` is `pid` (`find(t => t?.audio?.producerId === pid)` followed
by the `isValidMediaObject` guard). -/
def pauseFirstAudioConsumer : List DownstreamTransport → String → List DownstreamTransport
  | [], _ => []
  | t :: ts, pid =>
    match t.audio with
    | some a =>
      if a.producerId = pid then
        (if a.closed = false then { t with audio := some (pauseConsumer a) } else t) :: ts
      else t :: pauseFirstAudioConsumer ts pid
    | none => t :: pauseFirstAudioConsumer ts pid

/-- One muted pid for one client: pause the client's own open audio producer
when its id matches, otherwise pause the first matching open downstream audio
consumer. -/
def muteStep (c : Client) (pid : String) : Client :=
  match c.producer.audio with
  | some a =>
    if a.id = pid ∧ a.closed = false then
      { c with producer := { c.producer with audio := some (pauseProducer a) } }
    else { c with downstreamTransports := pauseFirstAudioConsumer c.downstreamTransports pid }
  | none => { c with downstreamTransports := pauseFirstAudioConsumer c.downstreamTransports pid }

/-- The active branch's downstream walk (`find(t => t?.associatedAudioPid ===
pid)`): resume the open audio consumer of the first matching transport; report
`true` (a new transport is needed) exactly when the walk finds no audio
consumer at all (`!downstreamToStart?.audio`). -/
def resumeFirstAudioConsumer : List DownstreamTransport → String →
    List DownstreamTransport × Bool
  | [], _ => ([], true)
  | t :: ts, pid =>
    if t.associatedAudioPid = some pid then
      match t.audio with
      | some a =>
        ((if a.closed = false then { t with audio := some (resumeConsumer a) } else t) :: ts,
          false)
      | none => (t :: ts, true)
    else
      let res := resumeFirstAudioConsumer ts pid
      (t :: res.1, res.2)

/-- One active pid for one client: resume the client's own open audio producer
when its id matches; otherwise resume the downstream audio consumer, or record
that `pid` needs a new transport. -/
def activeStep (c : Client) (pid : String) : Client × Bool :=
  match c.producer.audio with
  | some a =>
    if a.id = pid ∧ a.closed = false then
      ({ c with producer := { c.producer with audio := some (resumeProducer a) } }, false)
    else
      let res := resumeFirstAudioConsumer c.downstreamTransports pid
      ({ c with downstreamTransports := res.1 }, res.2)
  | none =>
    let res := resumeFirstAudioConsumer c.downstreamTransports pid
    ({ c with downstreamTransports := res.1 }, res.2)

/-- The video walk for one active pid: resume the first matching downstream
video consumer when it is paused and open. -/
def resumeFirstVideoConsumer : List DownstreamTransport → String → List DownstreamTransport
  | [], _ => []
  | t :: ts, pid =>
    if t.associatedAudioPid = some pid then
      (match t.video with
       | some v =>
         if v.paused = true ∧ v.closed = false then { t with video := some (resumeConsumer v) }
         else t
       | none => t) :: ts
    else t :: resumeFirstVideoConsumer ts pid

/-- `client?.producer?.audio?.id === pid` (producer ids are non-empty uuids,
so JS truthiness of `id` is presence). -/
def ownsAudioPid (c : Client) (pid : String) : Bool :=
  match c.producer.audio with
  | some a => a.id == pid
  | none => false

/-- The video policy for one active pid: video is only ever resumed, never
paused.  When the client has a video producer and owns the audio pid, resume
the video producer if paused and open; otherwise resume the matching
downstream video consumer.  (The source queues all video resumes after its
audio pass and the active pids are pairwise distinct, so applying them
sequentially is equivalent.) -/
def videoStep (c : Client) (pid : String) : Client :=
  match c.producer.video with
  | some v =>
    if ownsAudioPid c pid then
      if v.paused = true ∧ v.closed = false then
        { c with producer := { c.producer with video := some (resumeProducer v) } }
      else c
    else { c with downstreamTransports := resumeFirstVideoConsumer c.downstreamTransports pid }
  | none => { c with downstreamTransports := resumeFirstVideoConsumer c.downstreamTransports pid }

/-- The muted pass (`mutedSpeakers.forEach`). -/
def mutePhase : List String → Client → Client
  | [], c => c
  | pid :: rest, c => mutePhase rest (muteStep c pid)

/-- The active audio pass (`activeSpeakers.forEach`), accumulating
`newSpeakersToThisClient` in order. -/
def audioPhase : List String → Client → Client × List String
  | [], c => (c, [])
  | pid :: rest, c =>
    let r := activeStep c pid
    let rr := audioPhase rest r.1
    (rr.1, (if r.2 then [pid] else []) ++ rr.2)

/-- The video pass (`activeSpeakers.forEach` of the video section). -/
def videoPhase : List String → Client → Client
  | [], c => c
  | pid :: rest, c => videoPhase rest (videoStep c pid)

/-- Per-client processing of `updateActiveSpeakers`: the muted audio pass,
the active audio pass, then the resume-only video pass.  Returns the updated
client and its `newSpeakersToThisClient`. -/
def processClient (active muted : List String) (c : Client) : Client × List String :=
  let c1 := mutePhase muted c
  let r := audioPhase active c1
  (videoPhase active r.1, r.2)

structure UserInfo where
  id : String
  displayName : String
deriving DecidableEq, Repr

structure NewProducersToConsumeDto where
  routerRtpCapabilities : String
  audioPidsToCreate : List String
  videoPidsToCreate : List (Option String)
  associatedUsers : List UserInfo
  activeSpeakerList : List String
deriving DecidableEq, Repr

/-- Socket emissions of the engine and the dominant-speaker handler. -/
inductive Emission
  | updateActiveSpeakers (roomId : String) (speakers : List String)
  | newProducersToConsume (socketId : String) (payload : NewProducersToConsumeDto)
deriving DecidableEq, Repr

/-- `ActiveSpeakersService.updateActiveSpeakers(room)`: split the list at
`maxActiveSpeakers`, process every client, collect the non-empty
`newSpeakersToThisClient` lists by socket id, and emit the truncated list to
the whole room.  Returns the updated room, `newTransportsByPeer`, and the
emissions of this run. -/
def updateActiveSpeakers (maxAS : Nat) (room : Room) :
    Room × List (String × List String) × List Emission :=
  let activeSpeakers := room.activeSpeakerList.take maxAS
  let mutedSpeakers := room.activeSpeakerList.drop maxAS
  let results := room.clients.map
    (fun c => (c.socketId, processClient activeSpeakers mutedSpeakers c))
  let newTransportsByPeer :=
    (results.filter (fun r => !r.2.2.isEmpty)).map (fun r => (r.1, r.2.2))
  ({ room with clients := results.map (fun r => r.2.1) }, newTransportsByPeer,
    [.updateActiveSpeakers room.roomId activeSpeakers])

/-- `room.clients.find(c => c?.producer?.audio?.id === aPid ||
c?.producer?.screenAudio?.id === aPid)`. -/
def findAudioOwner (clients : List Client) (aPid : String) : Option Client :=
  clients.find? (fun c =>
    (match c.producer.audio with | some a => a.id == aPid | none => false) ||
    (match c.producer.screenAudio with | some a => a.id == aPid | none => false))

/-- The `videoPidsToCreate` entry for one audio pid: the owner's screen-video
id for a screen-audio pid, else the owner's video id, else `null`. -/
def videoPidFor (clients : List Client) (aPid : String) : Option String :=
  match findAudioOwner clients aPid with
  | none => none
  | some pc =>
    match pc.producer.screenAudio with
    | some sa =>
      if sa.id = aPid then pc.producer.screenVideo.map (fun v => v.id)
      else pc.producer.video.map (fun v => v.id)
    | none => pc.producer.video.map (fun v => v.id)

/-- The `associatedUsers` entry for one audio pid (screen shares are suffixed
`-screen` / `(Sharing)`). -/
def userInfoFor (clients : List Client) (aPid : String) : UserInfo :=
  match findAudioOwner clients aPid with
  | none => { id := "unknown", displayName := "Unknown User" }
  | some pc =>
    let isScreenShare :=
      match pc.producer.screenAudio with
      | some sa => sa.id == aPid
      | none => false
    if isScreenShare then
      { id := pc.userId ++ "-screen", displayName := pc.displayName ++ " (Sharing)" }
    else { id := pc.userId, displayName := pc.displayName }

/-- The `newProducersToConsume` payload built per target socket. -/
def buildPayload (room : Room) (maxAS : Nat) (apids : List String) :
    NewProducersToConsumeDto :=
  { routerRtpCapabilities := room.routerRtpCapabilities
    audioPidsToCreate := apids
    videoPidsToCreate := apids.map (videoPidFor room.clients)
    associatedUsers := apids.map (userInfoFor room.clients)
    activeSpeakerList := room.activeSpeakerList.take maxAS }

/-- The tail of `handleNewDominantSpeaker` after the list has been re-ranked:
run the engine; with no new transport requirements, emit only the truncated
list to the room; otherwise emit the per-socket payloads. -/
def runDominantUpdate (maxAS : Nat) (room1 : Room) : Room × List Emission :=
  let r := updateActiveSpeakers maxAS room1
  if r.2.1.isEmpty then
    (r.1, r.2.2 ++ [.updateActiveSpeakers r.1.roomId (r.1.activeSpeakerList.take maxAS)])
  else
    (r.1, r.2.2 ++
      r.2.1.map (fun e => .newProducersToConsume e.1 (buildPayload r.1 maxAS e.2)))

/-- `DominantSpeakerService.handleNewDominantSpeaker(ds, room)`: return with no
change and no emission when the producer id is already at index 0; otherwise
splice it out (the spliced element equals the event's id, which `findIndex`
matched) and unshift it, then run the engine.  Returns the updated room and
the emissions of the call. -/
def handleNewDominantSpeaker (maxAS : Nat) (room : Room) (pid : String) :
    Room × List Emission :=
  match room.activeSpeakerList.findIdx? (fun x => x == pid) with
  | some 0 => (room, [])
  | some (i + 1) =>
    runDominantUpdate maxAS
      { room with activeSpeakerList := pid :: room.activeSpeakerList.eraseIdx (i + 1) }
  | none =>
    runDominantUpdate maxAS { room with activeSpeakerList := pid :: room.activeSpeakerList }

/-! #### Specification predicates for the engine claims -/

/-- "No video handle is ever paused by the engine" at the `Option` level: a
paused video in the result was already paused before. -/
def noNewPauseOpt (v v' : Option Consumer) : Prop :=
  ∀ x : Consumer, v' = some x → x.paused = true →
    ∃ y : Consumer, v = some y ∧ y.paused = true

/-- Client-level video guarantee: the video producer is never newly paused,
screen video is untouched, and (pointwise) no downstream video consumer is
newly paused. -/
def videoNoNewPause (c c' : Client) : Prop :=
  (∀ x : MediaObj, c'.producer.video = some x → x.paused = true →
    ∃ y : MediaObj, c.producer.video = some y ∧ y.paused = true) ∧
  c'.producer.screenVideo = c.producer.screenVideo ∧
  List.Forall₂ (fun t t' => noNewPauseOpt t.video t'.video)
    c.downstreamTransports c'.downstreamTransports

/-- The audio-relevant key of a downstream transport: everything the engine's
control flow reads, excluding the mutable `paused` flags. -/
def dsAudioKey (t : DownstreamTransport) : Option String × Option (String × Bool) :=
  (t.associatedAudioPid, t.audio.map (fun a => (a.producerId, a.closed)))

/-- Data-model invariant: a downstream audio consumer consumes exactly the
transport's associated audio pid. -/
def listCoherent (l : List DownstreamTransport) : Prop :=
  ∀ t ∈ l, ∀ a : Consumer, t.audio = some a → t.associatedAudioPid = some a.producerId

/-- Data-model invariant: one downstream transport per consumed audio stream,
so audio consumers of distinct transports have distinct producer ids. -/
def uniqueAudioConsumers (l : List DownstreamTransport) : Prop :=
  l.Pairwise (fun t1 t2 => ∀ a1 a2 : Consumer, t1.audio = some a1 → t2.audio = some a2 →
    a1.producerId ≠ a2.producerId)

/-- Every open downstream audio consumer for `pid` is paused. -/
def pausedConsumersFor (l : List DownstreamTransport) (pid : String) : Prop :=
  ∀ t ∈ l, ∀ a : Consumer, t.audio = some a → a.producerId = pid → a.closed = false →
    a.paused = true

/-- The client has no downstream audio consumer at all for `pid`. -/
def noConsumerFor (l : List DownstreamTransport) (pid : String) : Prop :=
  ∀ t ∈ l, t.associatedAudioPid = some pid → t.audio = none

/-- The client does not own an audio producer with id `pid`. -/
def nonOwning (c : Client) (pid : String) : Prop :=
  ∀ a : MediaObj, c.producer.audio = some a → a.id ≠ pid

/-- A concrete witness room: `maxActiveSpeakers = 1`, speaker list
`["PA", "PB"]`, and one client that owns the audio producer `PB` and consumes
nothing. -/
def clientB : Client :=
  { userId := "u2", socketId := "sB", displayName := "Bee",
    producer :=
      { audio := some { id := "PB", closed := false, paused := false }
        video := none
        screenAudio := none
        screenVideo := none },
    downstreamTransports := [] }

def roomExample : Room :=
  { roomId := "r1", routerRtpCapabilities := "caps",
    activeSpeakerList := ["PA", "PB"], clients := [clientB] }

end Speakers

end TdSecret

namespace TdSecret

/-! ## Theorems -/

namespace Workers

/-- The threshold constant is the source's `0.8`. -/
theorem overloadScoreThreshold_eq : overloadScoreThreshold = 4 / 5 := by
  rw [overloadScoreThreshold, Rat.mk'_eq_divInt, Rat.divInt_eq_div]
  norm_num

theorem leastLoadedAux_mem (ws : List WorkerRecord) (best : WorkerRecord) :
    leastLoadedAux best ws = best ∨ leastLoadedAux best ws ∈ ws := by
  induction ws generalizing best with
  | nil => exact Or.inl rfl
  | cons w ws ih =>
    simp only [leastLoadedAux]
    by_cases h : scoreOrTop w < scoreOrTop best
    · simp only [if_pos h]
      rcases ih w with h1 | h1
      · exact Or.inr (by simp [h1])
      · exact Or.inr (List.mem_cons_of_mem _ h1)
    · simp only [if_neg h]
      rcases ih best with h1 | h1
      · exact Or.inl h1
      · exact Or.inr (List.mem_cons_of_mem _ h1)

theorem leastLoadedAux_le (ws : List WorkerRecord) (best : WorkerRecord) :
    scoreOrTop (leastLoadedAux best ws) ≤ scoreOrTop best ∧
      ∀ v ∈ ws, scoreOrTop (leastLoadedAux best ws) ≤ scoreOrTop v := by
  induction ws generalizing best with
  | nil => exact ⟨le_refl _, by simp⟩
  | cons w ws ih =>
    simp only [leastLoadedAux]
    by_cases h : scoreOrTop w < scoreOrTop best
    · simp only [if_pos h]
      refine ⟨le_trans (ih w).1 (le_of_lt h), ?_⟩
      intro v hv
      rcases List.mem_cons.mp hv with rfl | hv
      · exact (ih v).1
      · exact (ih w).2 v hv
    · simp only [if_neg h]
      refine ⟨(ih best).1, ?_⟩
      intro v hv
      rcases List.mem_cons.mp hv with rfl | hv
      · exact le_trans (ih best).1 (not_lt.mp h)
      · exact (ih best).2 v hv

theorem pickWorkerForRoom_cons (workers : List WorkerRecord) (roomId : String)
    (w : WorkerRecord) (ws : List WorkerRecord)
    (h : workers.filter (fun w => w.online) = w :: ws) :
    pickWorkerForRoom workers roomId =
      (if isOverloaded ((w :: ws).get
            ⟨hash32 roomId % (w :: ws).length, Nat.mod_lt _ (Nat.succ_pos _)⟩)
       then .ok (leastLoadedAux w ws)
       else .ok ((w :: ws).get
            ⟨hash32 roomId % (w :: ws).length, Nat.mod_lt _ (Nat.succ_pos _)⟩)) := by
  unfold pickWorkerForRoom
  rw [h]

/-- **C7.**  `pickWorkerForRoom` is deterministic and sticky: with no live
worker it fails with the no-workers error; otherwise it returns the live
worker at index `hash32(roomId) % live.length`, except that when that worker
is overloaded (score at or above the overload threshold, or not online) the
least-loaded live worker (by `score ?? ∞`) is returned instead.  The returned
worker is always live. -/
theorem c7_pick_worker_for_room (workers : List WorkerRecord) (roomId : String) :
    (workers.filter (fun w => w.online) = [] →
      pickWorkerForRoom workers roomId = .error "No mediasoup workers available") ∧
    (∀ w ws, workers.filter (fun w => w.online) = w :: ws →
      (isOverloaded ((w :: ws).get
          ⟨hash32 roomId % (w :: ws).length, Nat.mod_lt _ (Nat.succ_pos _)⟩) = false →
        pickWorkerForRoom workers roomId =
          .ok ((w :: ws).get
            ⟨hash32 roomId % (w :: ws).length, Nat.mod_lt _ (Nat.succ_pos _)⟩)) ∧
      (isOverloaded ((w :: ws).get
          ⟨hash32 roomId % (w :: ws).length, Nat.mod_lt _ (Nat.succ_pos _)⟩) = true →
        pickWorkerForRoom workers roomId = .ok (leastLoadedAux w ws) ∧
          leastLoadedAux w ws ∈ w :: ws ∧
          ∀ v ∈ w :: ws, scoreOrTop (leastLoadedAux w ws) ≤ scoreOrTop v) ∧
      (∀ r, pickWorkerForRoom workers roomId = .ok r → r.online = true)) := by
  constructor
  · intro h
    unfold pickWorkerForRoom
    rw [h]
  · intro w ws h
    have hcons := pickWorkerForRoom_cons workers roomId w ws h
    refine ⟨?_, ?_, ?_⟩
    · intro hno
      rw [hcons, if_neg (by rw [hno]; exact Bool.false_ne_true)]
    · intro hyes
      refine ⟨by rw [hcons, if_pos hyes], ?_, ?_⟩
      · rcases leastLoadedAux_mem ws w with h1 | h1
        · simp [h1]
        · exact List.mem_cons_of_mem _ h1
      · intro v hv
        rcases List.mem_cons.mp hv with rfl | hv
        · exact (leastLoadedAux_le ws v).1
        · exact (leastLoadedAux_le ws w).2 v hv
    · intro r hr
      rw [hcons] at hr
      have hmem : r ∈ w :: ws := by
        by_cases hov : isOverloaded ((w :: ws).get
            ⟨hash32 roomId % (w :: ws).length, Nat.mod_lt _ (Nat.succ_pos _)⟩) = true
        · rw [if_pos hov] at hr
          cases hr
          rcases leastLoadedAux_mem ws w with h1 | h1
          · simp [h1]
          · exact List.mem_cons_of_mem _ h1
        · rw [if_neg hov] at hr
          cases hr
          exact List.get_mem _ _ _
      have := List.mem_filter.mp (h ▸ hmem)
      simpa using this.2

/-- Witness for C7 at a concrete worker list and room id. -/
theorem c7_pick_worker_for_room_witness :
    pickWorkerForRoom [w0example] "r1" = .ok w0example := by
  have h := ((c7_pick_worker_for_room [w0example] "r1").2 w0example [] (by decide)).1 (by decide)
  exact h

end Workers

namespace MediaTransport

theorem connectConsumer_guard (l : List DownstreamTransport) (apid : Option String)
    (t : WebRtcTransport)
    (hfind : lookupDownstream l apid = some t)
    (hdtls : dtlsConnectedOrConnecting t = true) :
    connectConsumer l apid = .ok l := by
  induction l with
  | nil => simp [lookupDownstream] at hfind
  | cons x xs ih =>
    by_cases hx : (x.associatedAudioPid == apid) = true
    · rw [lookupDownstream, if_pos hx] at hfind
      have ht : x.transport = t := by simpa using hfind
      simp only [connectConsumer, if_pos hx, ht, hdtls, if_pos]
    · rw [lookupDownstream, if_neg hx] at hfind
      simp only [connectConsumer, if_neg hx, ih hfind]
      rfl

theorem connectConsumer_repeat (l l' : List DownstreamTransport) (apid : Option String)
    (h : connectConsumer l apid = .ok l') :
    connectConsumer l' apid = .ok l' ∧ sumConnects l' ≤ sumConnects l + 1 := by
  induction l generalizing l' with
  | nil => simp [connectConsumer] at h
  | cons x xs ih =>
    by_cases hx : (x.associatedAudioPid == apid) = true
    · simp only [connectConsumer, if_pos hx] at h
      by_cases hd : dtlsConnectedOrConnecting x.transport = true
      · rw [if_pos hd] at h
        cases h
        constructor
        · simp only [connectConsumer, if_pos hx, if_pos hd]
        · exact Nat.le_succ _
      · rw [if_neg hd] at h
        cases h
        constructor
        · simp only [connectConsumer]
          rw [if_pos hx]
          rfl
        · simp only [sumConnects, List.map_cons, List.sum_cons, transportConnect]
          omega
    · simp only [connectConsumer, if_neg hx] at h
      cases hrec : connectConsumer xs apid with
      | error e =>
        simp only [hrec, Except.map] at h
        exact Except.noConfusion h
      | ok ys =>
        simp only [hrec, Except.map, Except.ok.injEq] at h
        subst h
        obtain ⟨h1, h2⟩ := ih ys hrec
        constructor
        · simp only [connectConsumer]
          rw [if_neg hx, h1]
          rfl
        · simp only [sumConnects, List.map_cons, List.sum_cons] at h2 ⊢
          omega

/-- **C6.**  `connectTransport` is idempotent: (i) whenever the looked-up
transport's DTLS state is `connected` or `connecting`, the call returns
`"success"` without invoking the transport's `connect` (the client is
unchanged); (ii) hence after any successful call, a second identical call is
a no-op that still returns `"success"`, and across the two calls the
underlying `connect` is issued at most once. -/
theorem c6_connect_transport_idempotent (c : Client) (d : ConnectTransportDto) :
    (∀ t, lookupTransport c d = some t → dtlsConnectedOrConnecting t = true →
      connectTransport c d = .ok ("success", c)) ∧
    (∀ c1, connectTransport c d = .ok ("success", c1) →
      connectTransport c1 d = .ok ("success", c1) ∧
        totalConnects c1 ≤ totalConnects c + 1) := by
  constructor
  · intro t hlook hdtls
    cases hty : d.type with
    | producer =>
      simp only [lookupTransport, hty] at hlook
      simp only [connectTransport, hty, hlook, hdtls, if_pos]
    | consumer =>
      simp only [lookupTransport, hty] at hlook
      have := connectConsumer_guard c.downstreamTransports d.audioPid t hlook hdtls
      simp only [connectTransport, hty, this, Except.map]
  · intro c1 h
    cases hty : d.type with
    | producer =>
      simp only [connectTransport, hty] at h ⊢
      cases hup : c.upstreamTransport with
      | none =>
        simp only [hup] at h
        exact Except.noConfusion h
      | some t =>
        simp only [hup] at h
        by_cases hd : dtlsConnectedOrConnecting t = true
        · rw [if_pos hd] at h
          simp only [Except.ok.injEq, Prod.mk.injEq, true_and] at h
          subst h
          simp only [hup]
          rw [if_pos hd]
          simp
        · rw [if_neg hd] at h
          simp only [Except.ok.injEq, Prod.mk.injEq, true_and] at h
          subst h
          refine ⟨rfl, ?_⟩
          simp only [totalConnects, hup, transportConnect]
          omega
    | consumer =>
      simp only [connectTransport, hty] at h ⊢
      cases hcc : connectConsumer c.downstreamTransports d.audioPid with
      | error e =>
        simp only [hcc, Except.map] at h
        exact Except.noConfusion h
      | ok ds =>
        simp only [hcc, Except.map, Except.ok.injEq, Prod.mk.injEq, true_and] at h
        subst h
        obtain ⟨h1, h2⟩ := connectConsumer_repeat _ _ _ hcc
        constructor
        · have h1' : connectConsumer
              ({ c with downstreamTransports := ds } : Client).downstreamTransports d.audioPid
              = .ok ds := h1
          rw [h1']
          rfl
        · simp only [totalConnects]
          omega

/-- Witness for C6: two producer-side connects on a fresh transport; the
second is a no-op and only one `connect` is issued in total. -/
theorem c6_connect_transport_idempotent_witness :
    ∃ c1, connectTransport clientExample producerConnectDto = .ok ("success", c1) ∧
      connectTransport c1 producerConnectDto = .ok ("success", c1) ∧
      totalConnects c1 ≤ totalConnects clientExample + 1 := by
  have h := (c6_connect_transport_idempotent clientExample producerConnectDto).2
  have hc : connectTransport clientExample producerConnectDto =
      .ok ("success",
        { upstreamTransport := some { id := "up", dtlsState := .connecting, connectCount := 1 },
          downstreamTransports := [] }) := rfl
  obtain ⟨h1, h2⟩ := h _ hc
  exact ⟨_, hc, h1, h2⟩

end MediaTransport

namespace Messaging

theorem redisGet_after_setex (st : QueueState) (key v : String) (ttl now now2 : Nat)
    (h : now2 < now + ttl) :
    redisGet (redisSetex st key ttl v now) key now2 = some v := by
  simp [redisGet, redisSetex, List.find?, h]

/-- **C1.**  Within the idempotency TTL the durable enqueue succeeds at most
once: a first `contract:message.send` whose id has no live idempotency key
yields the success ack and exactly one `contract:message.new` broadcast to the
`jobId` room; a second send with the same id, issued while the key has not
expired, yields the `{delivered: true, duplicate: true, messageId: id}` ack,
emits no further `contract:message.new`, and leaves the queue state
unchanged. -/
theorem c1_duplicate_send_idempotent (st : QueueState)
    (p p' : ChatMessageSendPayload) (u u' : String) (t1 t2 : Nat)
    (hjob : ¬ p.jobId = "") (hbody : ¬ p.encryptedContent.body = "")
    (hjob' : ¬ p'.jobId = "") (hbody' : ¬ p'.encryptedContent.body = "")
    (hid : p'.id = p.id)
    (hfresh : redisGet st p.id t1 = none)
    (httl : t2 < t1 + idempotencyTTL) :
    ∀ a1 st1 b1, handleContractMessageSend st p u t1 = (a1, st1, b1) →
      a1 = .successAck p.id p.timestamp ∧
      b1 = [⟨p.jobId, "contract:message.new", mkMessage p u⟩] ∧
      handleContractMessageSend st1 p' u' t2 = (.okDuplicate p.id, st1, []) := by
  have hfresh' : redisGet st (mkMessage p u).id t1 = none := hfresh
  have hq1 : queueMessage st (mkMessage p u) t1 =
      ((p.id, false),
        redisSetex { st with jobs := st.jobs ++ [(p.id, mkMessage p u)] }
          p.id idempotencyTTL p.id t1) := by
    rw [queueMessage, hfresh']
    rfl
  have hrun1 : handleContractMessageSend st p u t1 =
      (.successAck p.id p.timestamp,
        redisSetex { st with jobs := st.jobs ++ [(p.id, mkMessage p u)] }
          p.id idempotencyTTL p.id t1,
        [⟨p.jobId, "contract:message.new", mkMessage p u⟩]) := by
    rw [handleContractMessageSend, if_neg hjob, if_neg hbody]
    simp only [hq1]
    rfl
  have hdup : redisGet
      (redisSetex { st with jobs := st.jobs ++ [(p.id, mkMessage p u)] }
        p.id idempotencyTTL p.id t1) (mkMessage p' u').id t2 = some p.id := by
    show redisGet _ p'.id t2 = some p.id
    rw [hid]
    exact redisGet_after_setex _ _ _ _ _ _ httl
  have hq2 : queueMessage
      (redisSetex { st with jobs := st.jobs ++ [(p.id, mkMessage p u)] }
        p.id idempotencyTTL p.id t1) (mkMessage p' u') t2 =
      ((p.id, true),
        redisSetex { st with jobs := st.jobs ++ [(p.id, mkMessage p u)] }
          p.id idempotencyTTL p.id t1) := by
    rw [queueMessage, hdup]
  have hrun2 : handleContractMessageSend
      (redisSetex { st with jobs := st.jobs ++ [(p.id, mkMessage p u)] }
        p.id idempotencyTTL p.id t1) p' u' t2 =
      (.okDuplicate p'.id,
        redisSetex { st with jobs := st.jobs ++ [(p.id, mkMessage p u)] }
          p.id idempotencyTTL p.id t1, []) := by
    rw [handleContractMessageSend, if_neg hjob', if_neg hbody']
    simp only [hq2]
    rfl
  intro a1 st1 b1 h
  rw [hrun1] at h
  injection h with h1 h23
  injection h23 with h2 h3
  subst h1
  subst h2
  subst h3
  refine ⟨rfl, rfl, ?_⟩
  rw [hrun2, hid]

/-- Witness for C1: a concrete first and second send of the same message. -/
theorem c1_duplicate_send_idempotent_witness :
    ∃ st1, (handleContractMessageSend ⟨[], []⟩ payloadExample "u1" 0).2.1 = st1 ∧
      (handleContractMessageSend ⟨[], []⟩ payloadExample "u1" 0).1 =
        .successAck "m1" 10 ∧
      handleContractMessageSend st1 payloadExample "u2" 50 =
        (.okDuplicate "m1", st1, []) := by
  obtain ⟨h1, _, h3⟩ :=
    c1_duplicate_send_idempotent ⟨[], []⟩ payloadExample payloadExample "u1" "u2" 0 50
      (by decide) (by decide) (by decide) (by decide) rfl (by decide) (by decide)
      (handleContractMessageSend ⟨[], []⟩ payloadExample "u1" 0).1
      (handleContractMessageSend ⟨[], []⟩ payloadExample "u1" 0).2.1
      (handleContractMessageSend ⟨[], []⟩ payloadExample "u1" 0).2.2 rfl
  exact ⟨_, rfl, h1, h3⟩

end Messaging

namespace Session

theorem smembers_del (st : SessionState) (e u : String) :
    smembers (delSocketUser st e) u = smembers st u := rfl

theorem smembers_set (st : SessionState) (s v u : String) :
    smembers (setSocketUser st s v) u = smembers st u := rfl

theorem getSocketUser_srem (st : SessionState) (u e x : String) :
    getSocketUser (sremSocket st u e) x = getSocketUser st x := rfl

theorem getSocketUser_sadd (st : SessionState) (u s x : String) :
    getSocketUser (saddSocket st u s) x = getSocketUser st x := by
  rw [saddSocket]
  by_cases h : st.userSockets.any (fun e => e.1 == u)
  · rw [if_pos h]
    rfl
  · rw [if_neg h]
    rfl

theorem sremFind_self (us : List (String × List String)) (u s : String) :
    (us.map (fun e => if e.1 == u then (e.1, e.2.filter (fun x => x != s)) else e)).find?
        (fun e => e.1 == u) =
      (us.find? (fun e => e.1 == u)).map (fun e => (e.1, e.2.filter (fun x => x != s))) := by
  induction us with
  | nil => rfl
  | cons hd rest ih =>
    cases hu : (hd.1 == u) with
    | true =>
      rw [List.map_cons, if_pos hu]
      simp only [List.find?, hu]
      rfl
    | false =>
      rw [List.map_cons, if_neg (by simp [hu])]
      simp only [List.find?, hu, ih]

theorem sremFind_other (us : List (String × List String)) (u s v : String) (hvu : v ≠ u) :
    (us.map (fun e => if e.1 == u then (e.1, e.2.filter (fun x => x != s)) else e)).find?
        (fun e => e.1 == v) =
      us.find? (fun e => e.1 == v) := by
  induction us with
  | nil => rfl
  | cons hd rest ih =>
    cases hu : (hd.1 == u) with
    | true =>
      have h1 : hd.1 = u := by simpa using hu
      have hne : (hd.1 == v) = false := by simp [h1, hvu.symm]
      rw [List.map_cons, if_pos hu]
      simp only [List.find?, hne, ih]
    | false =>
      rw [List.map_cons, if_neg (by simp [hu])]
      cases hv : (hd.1 == v) with
      | true => simp only [List.find?, hv]
      | false => simp only [List.find?, hv, ih]

theorem smembers_srem_self (st : SessionState) (u e : String) (x : String) :
    x ∈ smembers (sremSocket st u e) u ↔ x ∈ smembers st u ∧ x ≠ e := by
  show x ∈ ((_ : List (String × List String)).find? _ |>.map _).getD [] ↔ _
  rw [show (sremSocket st u e).userSockets =
      st.userSockets.map (fun e2 => if e2.1 == u then (e2.1, e2.2.filter (fun x => x != e)) else e2) from rfl]
  rw [sremFind_self]
  cases hf : st.userSockets.find? (fun e2 => e2.1 == u) with
  | none => simp [smembers, hf]
  | some e0 =>
    simp [smembers, hf, List.mem_filter, bne_iff_ne]

theorem smembers_srem_other (st : SessionState) (u e v : String) (hvu : v ≠ u) :
    smembers (sremSocket st u e) v = smembers st v := by
  show ((_ : List (String × List String)).find? _ |>.map _).getD [] = _
  rw [show (sremSocket st u e).userSockets =
      st.userSockets.map (fun e2 => if e2.1 == u then (e2.1, e2.2.filter (fun x => x != e)) else e2) from rfl]
  rw [sremFind_other _ _ _ _ hvu]
  rfl

theorem saddFind_self (us : List (String × List String)) (u s : String) :
    (us.map (fun e => if e.1 == u then (e.1, if e.2.contains s then e.2 else e.2 ++ [s]) else e)).find?
        (fun e => e.1 == u) =
      (us.find? (fun e => e.1 == u)).map
        (fun e => (e.1, if e.2.contains s then e.2 else e.2 ++ [s])) := by
  induction us with
  | nil => rfl
  | cons hd rest ih =>
    cases hu : (hd.1 == u) with
    | true =>
      rw [List.map_cons, if_pos hu]
      simp only [List.find?, hu]
      rfl
    | false =>
      rw [List.map_cons, if_neg (by simp [hu])]
      simp only [List.find?, hu, ih]

theorem saddFind_other (us : List (String × List String)) (u s v : String) (hvu : v ≠ u) :
    (us.map (fun e => if e.1 == u then (e.1, if e.2.contains s then e.2 else e.2 ++ [s]) else e)).find?
        (fun e => e.1 == v) =
      us.find? (fun e => e.1 == v) := by
  induction us with
  | nil => rfl
  | cons hd rest ih =>
    cases hu : (hd.1 == u) with
    | true =>
      have h1 : hd.1 = u := by simpa using hu
      have hne : (hd.1 == v) = false := by simp [h1, hvu.symm]
      rw [List.map_cons, if_pos hu]
      simp only [List.find?, hne, ih]
    | false =>
      rw [List.map_cons, if_neg (by simp [hu])]
      cases hv : (hd.1 == v) with
      | true => simp only [List.find?, hv]
      | false => simp only [List.find?, hv, ih]

theorem find_append_last (us : List (String × List String)) (u : String)
    (enew : String × List String)
    (hnone : us.find? (fun e => e.1 == u) = none) (hkey : (enew.1 == u) = true) :
    (us ++ [enew]).find? (fun e => e.1 == u) = some enew := by
  induction us with
  | nil => simp [List.find?, hkey]
  | cons hd rest ih =>
    cases hu : (hd.1 == u) with
    | true => simp [List.find?, hu] at hnone
    | false =>
      have hrest : rest.find? (fun e => e.1 == u) = none := by
        simpa [List.find?, hu] using hnone
      simpa [List.find?, hu] using ih hrest

theorem find_append_skip (us : List (String × List String)) (v : String)
    (enew : String × List String) (hkey : (enew.1 == v) = false) :
    (us ++ [enew]).find? (fun e => e.1 == v) = us.find? (fun e => e.1 == v) := by
  induction us with
  | nil => simp [List.find?, hkey]
  | cons hd rest ih =>
    cases hv : (hd.1 == v) with
    | true => simp [List.find?, hv]
    | false => simpa [List.find?, hv] using ih

theorem any_false_find_none (us : List (String × List String)) (u : String)
    (hany : us.any (fun e => e.1 == u) = false) :
    us.find? (fun e => e.1 == u) = none := by
  induction us with
  | nil => rfl
  | cons hd rest ih =>
    cases hu : (hd.1 == u) with
    | true => simp [List.any_cons, hu] at hany
    | false =>
      have hrest : rest.any (fun e => e.1 == u) = false := by
        simpa [List.any_cons, hu] using hany
      simpa [List.find?, hu] using ih hrest

theorem smembers_sadd_self (st : SessionState) (u s : String) (x : String) :
    x ∈ smembers (saddSocket st u s) u ↔ x ∈ smembers st u ∨ x = s := by
  rw [saddSocket]
  by_cases hany : st.userSockets.any (fun e => e.1 == u) = true
  · rw [if_pos hany]
    show x ∈ ((_ : List (String × List String)).find? _ |>.map _).getD [] ↔ _
    rw [saddFind_self]
    cases hf : st.userSockets.find? (fun e2 => e2.1 == u) with
    | none =>
      obtain ⟨e0, he0, hpe0⟩ := List.any_eq_true.mp hany
      exact absurd hpe0 (List.find?_eq_none.mp hf e0 he0)
    | some e0 =>
      have hsm : smembers st u = e0.2 := by
        show ((st.userSockets.find? (fun e2 => e2.1 == u)).map (fun e => e.2)).getD [] = e0.2
        rw [hf]
        rfl
      rw [hsm]
      show x ∈ (if e0.2.contains s then e0.2 else e0.2 ++ [s]) ↔ x ∈ e0.2 ∨ x = s
      by_cases hc : e0.2.contains s = true
      · rw [if_pos hc]
        have hs : s ∈ e0.2 := by simpa using hc
        constructor
        · intro hx
          exact Or.inl hx
        · rintro (hx | rfl)
          · exact hx
          · exact hs
      · rw [if_neg hc]
        simp [List.mem_append]
  · rw [if_neg hany]
    have hnone := any_false_find_none st.userSockets u (Bool.eq_false_iff.mpr hany)
    have happ := find_append_last st.userSockets u (u, [s]) hnone (by simp)
    show x ∈ ((_ : List (String × List String)).find? _ |>.map _).getD [] ↔ _
    rw [show ({ st with userSockets := st.userSockets ++ [(u, [s])] } : SessionState).userSockets
        = st.userSockets ++ [(u, [s])] from rfl, happ]
    simp [smembers, hnone]

theorem smembers_sadd_other (st : SessionState) (u s v : String) (hvu : v ≠ u) :
    smembers (saddSocket st u s) v = smembers st v := by
  rw [saddSocket]
  by_cases hany : st.userSockets.any (fun e => e.1 == u) = true
  · rw [if_pos hany]
    show ((_ : List (String × List String)).find? _ |>.map _).getD [] = _
    rw [saddFind_other _ _ _ _ hvu]
    rfl
  · rw [if_neg hany]
    have happ := find_append_skip st.userSockets v (u, [s])
      (by simp [hvu.symm])
    show ((_ : List (String × List String)).find? _ |>.map _).getD [] = _
    rw [show ({ st with userSockets := st.userSockets ++ [(u, [s])] } : SessionState).userSockets
        = st.userSockets ++ [(u, [s])] from rfl, happ]
    rfl

theorem delFind_none (su : List (String × String)) (e : String) :
    (su.filter (fun p => p.1 != e)).find? (fun p => p.1 == e) = none := by
  induction su with
  | nil => rfl
  | cons hd rest ih =>
    cases he : (hd.1 == e) with
    | true => simp [List.filter_cons, bne, he, ih]
    | false => simp [List.filter_cons, bne, he, List.find?, ih]

theorem delFind_other (su : List (String × String)) (e x : String) (hxe : x ≠ e) :
    (su.filter (fun p => p.1 != e)).find? (fun p => p.1 == x) =
      su.find? (fun p => p.1 == x) := by
  induction su with
  | nil => rfl
  | cons hd rest ih =>
    rw [List.filter_cons]
    by_cases he : (hd.1 == e) = true
    · have h1 : hd.1 = e := by simpa using he
      have hne : (hd.1 == x) = false := by simp [h1, hxe.symm]
      have hq : (hd.1 != e) = false := by simp [bne, he]
      rw [if_neg (by simp [hq]), ih]
      simp [List.find?, hne]
    · have he' : (hd.1 == e) = false := Bool.eq_false_iff.mpr he
      have hq : (hd.1 != e) = true := by simp [bne, he']
      rw [if_pos hq]
      by_cases hx : (hd.1 == x) = true
      · simp [List.find?, hx]
      · simp only [List.find?]
        rw [show (hd.1 == x) = false from Bool.eq_false_iff.mpr hx]
        exact ih

theorem getSocketUser_del_self (st : SessionState) (e : String) :
    getSocketUser (delSocketUser st e) e = none := by
  show ((st.socketUser.filter (fun p => p.1 != e)).find? (fun p => p.1 == e)).map
    (fun p => p.2) = none
  rw [delFind_none]
  rfl

theorem getSocketUser_del_other (st : SessionState) (e x : String) (hxe : x ≠ e) :
    getSocketUser (delSocketUser st e) x = getSocketUser st x := by
  show ((st.socketUser.filter (fun p => p.1 != e)).find? (fun p => p.1 == x)).map
      (fun p => p.2) =
    (st.socketUser.find? (fun p => p.1 == x)).map (fun p => p.2)
  rw [delFind_other _ _ _ hxe]

theorem getSocketUser_set_self (st : SessionState) (s u : String) :
    getSocketUser (setSocketUser st s u) s = some u := by
  simp [getSocketUser, setSocketUser, List.find?]

theorem getSocketUser_set_other (st : SessionState) (s u x : String) (hxs : x ≠ s) :
    getSocketUser (setSocketUser st s u) x = getSocketUser st x := by
  show (((s, u) :: st.socketUser.filter (fun p => p.1 != s)).find? (fun p => p.1 == x)).map
    (fun p => p.2) = _
  rw [List.find?]
  rw [show ((s, u).1 == x) = false by simp [hxs.symm]]
  exact getSocketUser_del_other st s x hxs

theorem bindFold_smembers_self (u s : String) (l : List String) (st : SessionState)
    (x : String) :
    (x ∈ smembers (l.foldl
        (fun acc e => if e != s then delSocketUser (sremSocket acc u e) e else acc) st) u) ↔
      x ∈ smembers st u ∧ ¬(x ∈ l ∧ x ≠ s) := by
  induction l generalizing st with
  | nil => simp
  | cons e rest ih =>
    rw [List.foldl_cons]
    by_cases hes : (e != s) = true
    · have hes' : e ≠ s := by simpa using hes
      rw [if_pos hes, ih, smembers_del]
      rw [smembers_srem_self]
      simp only [List.mem_cons]
      constructor
      · rintro ⟨⟨hsm, hxe⟩, hrest⟩
        refine ⟨hsm, ?_⟩
        rintro ⟨hx1 | hx2, hxs⟩
        · exact hxe hx1
        · exact hrest ⟨hx2, hxs⟩
      · rintro ⟨hsm, hnc⟩
        refine ⟨⟨hsm, ?_⟩, ?_⟩
        · rintro rfl
          exact hnc ⟨Or.inl rfl, hes'⟩
        · rintro ⟨hx2, hxs⟩
          exact hnc ⟨Or.inr hx2, hxs⟩
    · have hes' : e = s := by simpa using hes
      subst hes'
      rw [if_neg hes, ih]
      simp only [List.mem_cons]
      constructor
      · rintro ⟨hsm, hnc⟩
        refine ⟨hsm, ?_⟩
        rintro ⟨hx1 | hx2, hxs⟩
        · exact hxs hx1
        · exact hnc ⟨hx2, hxs⟩
      · rintro ⟨hsm, hnc⟩
        refine ⟨hsm, ?_⟩
        rintro ⟨hx2, hxs⟩
        exact hnc ⟨Or.inr hx2, hxs⟩

theorem bindFold_smembers_other (u s v : String) (hvu : v ≠ u) (l : List String)
    (st : SessionState) :
    smembers (l.foldl
        (fun acc e => if e != s then delSocketUser (sremSocket acc u e) e else acc) st) v =
      smembers st v := by
  induction l generalizing st with
  | nil => rfl
  | cons e rest ih =>
    rw [List.foldl_cons]
    by_cases hes : (e != s) = true
    · rw [if_pos hes, ih, smembers_del, smembers_srem_other _ _ _ _ hvu]
    · rw [if_neg hes, ih]

theorem bindFold_getSocketUser (u s : String) (l : List String) (st : SessionState)
    (x : String) :
    getSocketUser (l.foldl
        (fun acc e => if e != s then delSocketUser (sremSocket acc u e) e else acc) st) x =
      if x ∈ l ∧ x ≠ s then none else getSocketUser st x := by
  induction l generalizing st with
  | nil => simp
  | cons e rest ih =>
    rw [List.foldl_cons]
    by_cases hes : (e != s) = true
    · have hes' : e ≠ s := by simpa using hes
      rw [if_pos hes, ih]
      by_cases hx : x ∈ e :: rest ∧ x ≠ s
      · rw [if_pos hx]
        obtain ⟨hmem, hxs⟩ := hx
        rcases List.mem_cons.mp hmem with rfl | hmem2
        · by_cases h2 : x ∈ rest ∧ x ≠ s
          · rw [if_pos h2]
          · rw [if_neg h2]
            show getSocketUser (delSocketUser (sremSocket st u x) x) x = none
            exact getSocketUser_del_self _ _
        · rw [if_pos ⟨hmem2, hxs⟩]
      · rw [if_neg hx]
        have h2 : ¬(x ∈ rest ∧ x ≠ s) := by
          rintro ⟨ha, hb⟩
          exact hx ⟨List.mem_cons_of_mem _ ha, hb⟩
        rw [if_neg h2]
        have hxe : x ≠ e := by
          rintro rfl
          by_cases hxs : x = s
          · exact hes' hxs
          · exact hx ⟨List.mem_cons_self _ _, hxs⟩
        rw [show getSocketUser (delSocketUser (sremSocket st u e) e) x =
              getSocketUser (sremSocket st u e) x from getSocketUser_del_other _ _ _ hxe]
        rw [getSocketUser_srem]
    · have hes' : e = s := by simpa using hes
      rw [if_neg hes, ih]
      by_cases h2 : x ∈ rest ∧ x ≠ s
      · rw [if_pos h2, if_pos ⟨List.mem_cons_of_mem _ h2.1, h2.2⟩]
      · rw [if_neg h2, if_neg]
        intro hc
        rcases List.mem_cons.mp hc.1 with rfl | hx2
        · exact hc.2 hes'
        · exact h2 ⟨hx2, hc.2⟩

/-- **C3.**  Immediately after `mapUserToSocket(u, s)` the set
`user:sockets:{u}` is exactly `{s}`, the reverse mapping `socket:user:{s}`
holds `u`, every previously bound socket of `u` has been removed from the set
and its reverse mapping deleted, no other user's set is touched, and the
at-most-one-socket-per-user invariant is preserved by both `mapUserToSocket`
and `unmapSocket`. -/
theorem c3_bind_single_socket (st : SessionState) (u s : String) :
    (∀ x, x ∈ smembers (mapUserToSocket st u s) u ↔ x = s) ∧
    getSocketUser (mapUserToSocket st u s) s = some u ∧
    (∀ e, e ∈ smembers st u → e ≠ s →
      e ∉ smembers (mapUserToSocket st u s) u ∧
      getSocketUser (mapUserToSocket st u s) e = none) ∧
    (∀ v, v ≠ u → smembers (mapUserToSocket st u s) v = smembers st v) ∧
    (AtMostOneSocket st → AtMostOneSocket (mapUserToSocket st u s)) ∧
    (AtMostOneSocket st → AtMostOneSocket (unmapSocket st s)) := by
  have hmem : ∀ x, x ∈ smembers (mapUserToSocket st u s) u ↔ x = s := by
    intro x
    rw [mapUserToSocket, smembers_set]
    rw [smembers_sadd_self]
    rw [bindFold_smembers_self]
    constructor
    · rintro (⟨hsm, hnc⟩ | rfl)
      · by_cases hxs : x = s
        · exact hxs
        · exact absurd ⟨hsm, hxs⟩ hnc
      · rfl
    · rintro rfl
      exact Or.inr rfl
  have hother : ∀ v, v ≠ u → smembers (mapUserToSocket st u s) v = smembers st v := by
    intro v hvu
    rw [mapUserToSocket, smembers_set, smembers_sadd_other _ _ _ _ hvu,
      bindFold_smembers_other _ _ _ hvu]
  refine ⟨hmem, ?_, ?_, hother, ?_, ?_⟩
  · rw [mapUserToSocket]
    exact getSocketUser_set_self _ _ _
  · intro e hesm hes
    refine ⟨fun hc => hes ((hmem e).mp hc), ?_⟩
    rw [mapUserToSocket, getSocketUser_set_other _ _ _ _ hes, getSocketUser_sadd,
      bindFold_getSocketUser, if_pos ⟨hesm, hes⟩]
  · intro hin v x y hx hy
    by_cases hv : v = u
    · subst hv
      rw [(hmem x).mp hx, (hmem y).mp hy]
    · rw [hother v hv] at hx hy
      exact hin v x y hx hy
  · intro hin v x y hx hy
    rw [unmapSocket] at hx hy
    cases hg : getSocketUser st s with
    | none =>
      rw [hg] at hx hy
      exact hin v x y hx hy
    | some u0 =>
      rw [hg] at hx hy
      rw [smembers_del] at hx hy
      by_cases hv : v = u0
      · subst hv
        rw [smembers_srem_self] at hx hy
        exact hin v x y hx.1 hy.1
      · rw [smembers_srem_other _ _ _ _ hv] at hx hy
        exact hin v x y hx hy

/-- Witness for C3 at a concrete state: binding socket `s2` for user `u1`
leaves exactly `s2` mapped and fully evicts the stale socket `s1`. -/
theorem c3_bind_single_socket_witness :
    "s1" ∉ smembers (mapUserToSocket sessionExample "u1" "s2") "u1" ∧
    getSocketUser (mapUserToSocket sessionExample "u1" "s2") "s2" = some "u1" ∧
    getSocketUser (mapUserToSocket sessionExample "u1" "s2") "s1" = none := by
  obtain ⟨h1, h2, h3, _, _, _⟩ := c3_bind_single_socket sessionExample "u1" "s2"
  obtain ⟨ha, hb⟩ := h3 "s1" (by decide) (by decide)
  exact ⟨ha, h2, hb⟩

end Session

namespace JobQueue

theorem chain_insertByTs : ∀ (l : List QueuedMessage) (q : QueuedMessage),
    l.Chain' (fun a b => a.timestamp ≤ b.timestamp) →
    (insertByTs q l).Chain' (fun a b => a.timestamp ≤ b.timestamp)
  | [], q, _ => List.chain'_singleton q
  | r :: rs, q, h => by
    rw [insertByTs]
    by_cases hq : q.timestamp < r.timestamp
    · rw [if_pos hq]
      exact (List.chain'_cons).mpr ⟨le_of_lt hq, h⟩
    · rw [if_neg hq]
      have hrq : r.timestamp ≤ q.timestamp := not_lt.mp hq
      have ih := chain_insertByTs rs q ((List.chain'_cons'.mp h).2)
      refine List.chain'_cons'.mpr ⟨?_, ih⟩
      intro z hz
      cases rs with
      | nil =>
        rw [insertByTs] at hz
        simp at hz
        subst hz
        exact hrq
      | cons r2 rs2 =>
        rw [insertByTs] at hz
        by_cases hq2 : q.timestamp < r2.timestamp
        · rw [if_pos hq2] at hz
          simp at hz
          subst hz
          exact hrq
        · rw [if_neg hq2] at hz
          simp at hz
          subst hz
          exact (List.chain'_cons'.mp h).1 r2 rfl

theorem chain_sortByTs_aux (l : List QueuedMessage) (acc : List QueuedMessage)
    (h : acc.Chain' (fun a b => a.timestamp ≤ b.timestamp)) :
    (l.foldl (fun acc q => insertByTs q acc) acc).Chain'
      (fun a b => a.timestamp ≤ b.timestamp) := by
  induction l generalizing acc with
  | nil => exact h
  | cons q rest ih => exact ih _ (chain_insertByTs acc q h)

theorem chain_sortByTs (l : List QueuedMessage) :
    (sortByTs l).Chain' (fun a b => a.timestamp ≤ b.timestamp) :=
  chain_sortByTs_aux l [] List.chain'_nil

/-- The state discipline preserved by every step. -/
def QueueInv (s : QueueState) : Prop :=
  (s.processing = true ↔ s.current.isSome = true) ∧
  s.queue.Chain' (fun a b => a.timestamp ≤ b.timestamp)

theorem queueInv_tryDispatch (s : QueueState) (h : QueueInv s) :
    QueueInv (tryDispatch s) := by
  rw [tryDispatch]
  by_cases hp : s.processing = true
  · rw [if_pos hp]
    exact h
  · rw [if_neg hp]
    cases hq : s.queue with
    | nil => exact h
    | cons hd rest =>
      refine ⟨by simp, ?_⟩
      have h2 := h.2
      rw [hq] at h2
      exact h2.tail

theorem tryDispatch_settled (s : QueueState) :
    (tryDispatch s).settled = s.settled := by
  rw [tryDispatch]
  by_cases hp : s.processing = true
  · rw [if_pos hp]
  · rw [if_neg hp]
    cases s.queue <;> rfl

theorem tryDispatch_last (s : QueueState) :
    (tryDispatch s).lastProcessedTimestamp = s.lastProcessedTimestamp := by
  rw [tryDispatch]
  by_cases hp : s.processing = true
  · rw [if_pos hp]
  · rw [if_neg hp]
    cases s.queue <;> rfl

theorem queueInv_step (s : QueueState) (e : QueueEvent) (h : QueueInv s) :
    QueueInv (queueStep s e) := by
  cases e with
  | enqueue ts tid =>
    exact queueInv_tryDispatch _ ⟨h.1, chain_sortByTs _⟩
  | finish ok =>
    rw [queueStep]
    cases hc : s.current with
    | none => exact h
    | some c =>
      exact queueInv_tryDispatch _ ⟨by simp, h.2⟩

theorem runFrom_inv (tr : List QueueEvent) (s : QueueState) (h : QueueInv s) :
    QueueInv (runFrom s tr) := by
  induction tr generalizing s with
  | nil => exact h
  | cons e rest ih => exact ih _ (queueInv_step s e h)

theorem step_last_mono (s : QueueState) (e : QueueEvent) :
    s.lastProcessedTimestamp ≤ (queueStep s e).lastProcessedTimestamp := by
  cases e with
  | enqueue ts tid =>
    rw [queueStep, tryDispatch_last]
  | finish ok =>
    rw [queueStep]
    cases hc : s.current with
    | none => exact le_refl _
    | some c =>
      rw [tryDispatch_last]
      cases ok with
      | true => exact le_max_left _ _
      | false => exact le_refl _

/-- The trace of scenario S3 refutes the non-decreasing dispatch order: the
timestamp-200 task is dispatched first, then the late timestamp-100 task is
still dispatched (with a logged warning), so the dispatch log `[200, 100]` is
not chronological. -/
theorem c2_counterexample_late_arrival :
    dispatchedTs (runTrace lateArrivalTrace) = [200, 100] ∧
    ¬ chronological (dispatchedTs (runTrace lateArrivalTrace)) ∧
    (runTrace lateArrivalTrace).warnings.map (fun q => q.timestamp) = [100] ∧
    (runTrace lateArrivalTrace).settled =  [(0, true), (1, true)] := by
  refine ⟨by decide, ?_, by decide, by decide⟩
  intro hc
  rw [show dispatchedTs (runTrace lateArrivalTrace) = [200, 100] by decide] at hc
  exact absurd (List.chain'_cons.mp hc).1 (by decide)

/-- **C2 (amended).**  The per-job queue dispatches one task at a time (a task
is in flight exactly while `processing` is set, and a new dispatch happens
only from the idle state); every enqueue re-sorts the pending queue so it is
always in ascending timestamp order; a pending head whose timestamp is below
`lastProcessedTimestamp` is nevertheless dispatched, after a logged
late-arrival warning; and `lastProcessedTimestamp` never decreases.  (The
original claim's globally non-decreasing dispatch order fails on late
arrivals, see the counterexample.) -/
theorem c2_amended_queue_discipline (tr : List QueueEvent) :
    ((runTrace tr).processing = true ↔ (runTrace tr).current.isSome = true) ∧
    (runTrace tr).queue.Chain' (fun a b => a.timestamp ≤ b.timestamp) ∧
    (∀ s : QueueState, ∀ h : QueuedMessage, ∀ rest : List QueuedMessage,
      s.processing = false → s.queue = h :: rest →
      h.timestamp < s.lastProcessedTimestamp →
      (tryDispatch s).current = some h ∧
      (tryDispatch s).dispatched = s.dispatched ++ [h] ∧
      (tryDispatch s).warnings = s.warnings ++ [h] ∧
      (tryDispatch s).processing = true) ∧
    (∀ s : QueueState, ∀ e : QueueEvent,
      s.lastProcessedTimestamp ≤ (queueStep s e).lastProcessedTimestamp) := by
  have hinv := runFrom_inv tr initQueue ⟨by simp [initQueue], List.chain'_nil⟩
  refine ⟨hinv.1, hinv.2, ?_, step_last_mono⟩
  intro s h rest hp hq hlt
  rw [tryDispatch, if_neg (by rw [hp]; exact Bool.false_ne_true), hq]
  refine ⟨rfl, rfl, ?_, rfl⟩
  show (if h.timestamp < s.lastProcessedTimestamp then s.warnings ++ [h] else s.warnings) = _
  rw [if_pos hlt]

/-- Witness for the amended C2 at the S3 trace and a concrete idle state. -/
theorem c2_amended_queue_discipline_witness :
    (runTrace lateArrivalTrace).queue.Chain' (fun a b => a.timestamp ≤ b.timestamp) ∧
    (tryDispatch lateArrivalState).current = some ⟨100, 1⟩ ∧
    (tryDispatch lateArrivalState).warnings = [⟨100, 1⟩] := by
  obtain ⟨_, h2, h3, _⟩ := c2_amended_queue_discipline lateArrivalTrace
  obtain ⟨ha, _, hw, _⟩ := h3 lateArrivalState ⟨100, 1⟩ [] rfl rfl (by decide)
  exact ⟨h2, ha, by simpa using hw⟩

/-- **C9.**  A task that throws affects only its own enqueue: its waiter is
rejected, `lastProcessedTimestamp` is not advanced, and the runner immediately
dispatches the next pending task of the same job, so a failing task never
wedges the queue. -/
theorem c9_failing_task_isolated (s : QueueState) (c : QueuedMessage)
    (hcur : s.current = some c) :
    (queueStep s (.finish false)).settled = s.settled ++ [(c.taskId, false)] ∧
    (queueStep s (.finish false)).lastProcessedTimestamp = s.lastProcessedTimestamp ∧
    (∀ h rest, s.queue = h :: rest →
      (queueStep s (.finish false)).current = some h ∧
      (queueStep s (.finish false)).dispatched = s.dispatched ++ [h] ∧
      (queueStep s (.finish false)).queue = rest ∧
      (queueStep s (.finish false)).processing = true) := by
  have hstep : queueStep s (.finish false) =
      tryDispatch { s with
        processing := false
        current := none
        lastProcessedTimestamp := s.lastProcessedTimestamp
        settled := s.settled ++ [(c.taskId, false)] } := by
    rw [queueStep, hcur]
    rfl
  rw [hstep]
  refine ⟨by rw [tryDispatch_settled], by rw [tryDispatch_last], ?_⟩
  intro h rest hq
  rw [tryDispatch, if_neg (by simp), hq]
  exact ⟨rfl, rfl, rfl, rfl⟩

/-- Witness for C9 at a concrete state: the failing task 0 is rejected, the
timestamp is not advanced, and pending task 1 is dispatched next. -/
theorem c9_failing_task_isolated_witness :
    (queueStep failingTaskState (.finish false)).settled = [(0, false)] ∧
    (queueStep failingTaskState (.finish false)).lastProcessedTimestamp = 0 ∧
    (queueStep failingTaskState (.finish false)).current = some ⟨100, 1⟩ := by
  obtain ⟨h1, h2, h3⟩ := c9_failing_task_isolated failingTaskState ⟨200, 0⟩ rfl
  obtain ⟨h4, _, _, _⟩ := h3 ⟨100, 1⟩ [] rfl
  exact ⟨by simpa using h1, h2, h4⟩

end JobQueue

namespace STT

/-- The retry trace refutes at-most-once processing of a segment index: after
a transcription failure the in-flight marker is released while
`lastProcessedSegment` stays at −1, so a later file event dispatches segment 0
to the transcription worker a second time. -/
theorem c8_counterexample_retry_after_failure :
    (runSeg retryTrace).dispatches = [0, 0] ∧
    ¬ ((runSeg retryTrace).dispatches.count 0 ≤ 1) ∧
    (runSeg retryTrace).stored = [] := by decide

/-- **C8 (amended).**  Segment processing discipline of `handleFileEvent`:
`lastProcessedSegment` never decreases; a segment is never dispatched while it
is in flight, nor once `lastProcessedSegment` has reached its index (so a
successfully processed index, which sets `lastProcessedSegment` to
`max(last, index)`, is never reprocessed); on failure or timeout the segment
is dropped (nothing stored) and the in-flight marker is released either way.
(The unqualified "each segment index is processed at most once" fails: a
failed segment may be dispatched again by a later file event, see the
counterexample.) -/
theorem c8_amended_segment_discipline (s : SegState) :
    (∀ e, s.lastProcessedSegment ≤ (segStep s e).lastProcessedSegment) ∧
    (∀ i, i ∈ s.processingSegments → segStep s (.dispatch i) = s) ∧
    (∀ i : Nat, (i : Int) ≤ s.lastProcessedSegment → segStep s (.dispatch i) = s) ∧
    (∀ i, i ∈ s.processingSegments →
      (segStep s (.outcome i true)).stored = s.stored ++ [i] ∧
      (segStep s (.outcome i true)).lastProcessedSegment =
        max s.lastProcessedSegment (i : Int) ∧
      i ∉ (segStep s (.outcome i true)).processingSegments) ∧
    (∀ i, i ∈ s.processingSegments →
      (segStep s (.outcome i false)).stored = s.stored ∧
      (segStep s (.outcome i false)).lastProcessedSegment = s.lastProcessedSegment ∧
      i ∉ (segStep s (.outcome i false)).processingSegments) := by
  refine ⟨?_, ?_, ?_, ?_, ?_⟩
  · intro e
    cases e with
    | dispatch i =>
      rw [segStep]
      by_cases hg : (i : Int) > s.lastProcessedSegment ∧ i ∉ s.processingSegments
      · rw [if_pos hg]
      · rw [if_neg hg]
    | outcome i ok =>
      rw [segStep]
      by_cases hi : i ∈ s.processingSegments
      · rw [if_pos hi]
        cases ok with
        | true => exact le_max_left _ _
        | false => exact le_refl _
      · rw [if_neg hi]
  · intro i hi
    rw [segStep, if_neg]
    rintro ⟨_, h2⟩
    exact h2 hi
  · intro i hle
    rw [segStep, if_neg]
    rintro ⟨h1, _⟩
    exact absurd h1 (not_lt.mpr hle)
  · intro i hi
    rw [segStep, if_pos hi]
    refine ⟨rfl, rfl, ?_⟩
    simp [List.mem_filter]
  · intro i hi
    rw [segStep, if_pos hi]
    refine ⟨rfl, rfl, ?_⟩
    simp [List.mem_filter]

/-- Witness for the amended C8 at concrete states: a successful outcome for the
in-flight segment 0 stores it and advances `lastProcessedSegment`, after which
a renewed dispatch of segment 0 is a no-op. -/
theorem c8_amended_segment_discipline_witness :
    (segStep ⟨-1, [0], [], [0]⟩ (.outcome 0 true)).stored = [0] ∧
    (segStep ⟨-1, [0], [], [0]⟩ (.outcome 0 true)).lastProcessedSegment = 0 ∧
    segStep ⟨0, [], [0], [0]⟩ (.dispatch 0) = ⟨0, [], [0], [0]⟩ := by
  obtain ⟨_, _, _, h4, _⟩ := c8_amended_segment_discipline ⟨-1, [0], [], [0]⟩
  obtain ⟨ha, hb, _⟩ := h4 0 (by decide)
  obtain ⟨_, _, h3, _, _⟩ := c8_amended_segment_discipline ⟨0, [], [0], [0]⟩
  exact ⟨by simpa using ha, by simpa using hb, h3 0 (by decide)⟩

theorem getSession_releasePort (st : STTState) (port : Nat) (x : String) :
    getSession (releasePort st port) x = getSession st x := by
  rw [releasePort]
  by_cases h : st.usedPorts.contains port = true
  · rw [if_pos h]
    rfl
  · rw [if_neg h]

theorem sttDeleteFind_none (l : List (String × RTPSession)) (k : String) :
    (l.filter (fun e => e.1 != k)).find? (fun e => e.1 == k) = none := by
  induction l with
  | nil => rfl
  | cons hd rest ih =>
    cases hk : (hd.1 == k) with
    | true => simp [List.filter_cons, bne, hk, ih]
    | false => simp [List.filter_cons, bne, hk, List.find?, ih]

theorem getSession_deleteSession (st : STTState) (k : String) :
    getSession (deleteSession st k) k = none := by
  show ((st.rtpSessions.filter (fun e => e.1 != k)).find? (fun e => e.1 == k)).map
    (fun e => e.2) = none
  rw [sttDeleteFind_none]
  rfl

/-- **C10.**  At most one audio side-tap session exists per participant:
sessions are keyed by `participantId`; when a session for the participant is
already active, `startTranscription` returns with the service state completely
unchanged (no port pair allocated, no plain transport created, no segmenter
spawned), so the first audio producer stays tapped; a successful fresh start
registers the session under the participant id with the given producer; and
`stopTranscription` removes the participant's session. -/
theorem c10_single_session_per_participant (st : STTState) (c : Client)
    (pid : String) (sysAvail : Nat → Bool) (r : RoomRef)
    (hroom : c.room = some r) (hrouter : r.routerPresent = true) :
    ((getSession st c.userId).isSome = true →
      startTranscription st c pid sysAvail = .ok st) ∧
    getSession (stopTranscription st c.userId) c.userId = none ∧
    (∀ st1, getSession st c.userId = none →
      startTranscription st c pid sysAvail = .ok st1 →
      ∃ sess1, getSession st1 c.userId = some sess1 ∧
        sess1.producerId = pid ∧ sess1.participantId = c.userId) := by
  refine ⟨?_, ?_, ?_⟩
  · intro hact
    simp only [startTranscription, hroom]
    rw [if_neg (by simp [hrouter]), if_pos hact]
  · rw [stopTranscription]
    cases hg : getSession st c.userId with
    | none => exact hg
    | some sess =>
      rw [show getSession
            (deleteSession (releasePort (releasePort st sess.rtpPort) sess.rtcpPort)
              c.userId) c.userId =
          none from getSession_deleteSession _ _]
  · intro st1 hnone hrun
    simp only [startTranscription, hroom] at hrun
    rw [if_neg (by simp [hrouter])] at hrun
    rw [hnone] at hrun
    simp only [Option.isSome_none] at hrun
    rw [if_neg (by simp)] at hrun
    cases hpair : getAvailablePortPair st sysAvail with
    | error e =>
      rw [hpair] at hrun
      exact Except.noConfusion hrun
    | ok res =>
      obtain ⟨p1, p2, st2⟩ := res
      rw [hpair] at hrun
      simp only [Except.ok.injEq] at hrun
      subst hrun
      refine ⟨{ participantId := c.userId
                roomId := r.roomId
                producerId := pid
                rtpPort := p1
                rtcpPort := p2
                lastProcessedSegment := -1
                isActive := true }, ?_, rfl, rfl⟩
      simp [getSession, setSession, List.find?]

/-- Witness for C10 at a concrete state: a second `startTranscription` for
participant `p1` (for a new producer `prodB`) leaves the service state
untouched, and `stopTranscription` removes the session. -/
theorem c10_single_session_per_participant_witness :
    startTranscription sttStateExample clientP1 "prodB" (fun _ => true) =
      .ok sttStateExample ∧
    getSession (stopTranscription sttStateExample "p1") "p1" = none := by
  obtain ⟨h1, h2, _⟩ := c10_single_session_per_participant sttStateExample clientP1
    "prodB" (fun _ => true) { roomId := "r1", routerPresent := true } rfl rfl
  exact ⟨h1 (by decide), h2⟩

end STT

namespace Speakers

theorem noNewPauseOpt_refl (v : Option Consumer) : noNewPauseOpt v v := by
  intro x hx hp
  exact ⟨x, hx, hp⟩

theorem noNewPauseOpt_trans (a b c : Option Consumer)
    (h1 : noNewPauseOpt a b) (h2 : noNewPauseOpt b c) : noNewPauseOpt a c := by
  intro x hx hp
  obtain ⟨y, hy, hyp⟩ := h2 x hx hp
  exact h1 y hy hyp

theorem forall2_video_refl (l : List DownstreamTransport) :
    List.Forall₂ (fun t t' => noNewPauseOpt t.video t'.video) l l := by
  induction l with
  | nil => exact .nil
  | cons t ts ih => exact .cons (noNewPauseOpt_refl _) ih

theorem forall2_video_trans {l1 l2 l3 : List DownstreamTransport}
    (h1 : List.Forall₂ (fun t t' => noNewPauseOpt t.video t'.video) l1 l2)
    (h2 : List.Forall₂ (fun t t' => noNewPauseOpt t.video t'.video) l2 l3) :
    List.Forall₂ (fun t t' => noNewPauseOpt t.video t'.video) l1 l3 := by
  induction h1 generalizing l3 with
  | nil =>
    cases h2
    exact .nil
  | cons hr hrest ih =>
    cases h2 with
    | cons hr2 hrest2 => exact .cons (noNewPauseOpt_trans _ _ _ hr hr2) (ih hrest2)

theorem forall2_video_of_map_eq : ∀ (l l' : List DownstreamTransport),
    l'.map (fun t => t.video) = l.map (fun t => t.video) →
    List.Forall₂ (fun t t' => noNewPauseOpt t.video t'.video) l l'
  | [], [], _ => .nil
  | [], _ :: _, h => by simp at h
  | _ :: _, [], h => by simp at h
  | t :: l, t' :: l', h => by
    simp only [List.map_cons, List.cons.injEq] at h
    refine .cons ?_ (forall2_video_of_map_eq l l' h.2)
    rw [show noNewPauseOpt t.video t'.video = noNewPauseOpt t.video t.video by rw [h.1]]
    exact noNewPauseOpt_refl _

theorem videoNoNewPause_refl (c : Client) : videoNoNewPause c c :=
  ⟨fun x hx hp => ⟨x, hx, hp⟩, rfl, forall2_video_refl _⟩

theorem videoNoNewPause_trans (a b c : Client)
    (h1 : videoNoNewPause a b) (h2 : videoNoNewPause b c) : videoNoNewPause a c := by
  refine ⟨?_, h2.2.1.trans h1.2.1, forall2_video_trans h1.2.2 h2.2.2⟩
  intro x hx hp
  obtain ⟨y, hy, hyp⟩ := h2.1 x hx hp
  exact h1.1 y hy hyp

theorem videoNoNewPause_of_eqs (c c' : Client)
    (h1 : c'.producer.video = c.producer.video)
    (h2 : c'.producer.screenVideo = c.producer.screenVideo)
    (h3 : c'.downstreamTransports.map (fun t => t.video) =
      c.downstreamTransports.map (fun t => t.video)) :
    videoNoNewPause c c' := by
  refine ⟨?_, h2, forall2_video_of_map_eq _ _ h3⟩
  intro x hx hp
  rw [h1] at hx
  exact ⟨x, hx, hp⟩

theorem pauseFirst_video_map (l : List DownstreamTransport) (pid : String) :
    (pauseFirstAudioConsumer l pid).map (fun t => t.video) = l.map (fun t => t.video) := by
  induction l with
  | nil => rfl
  | cons t ts ih =>
    cases ht : t.audio with
    | none => simp only [pauseFirstAudioConsumer, ht, List.map_cons, ih]
    | some a =>
      simp only [pauseFirstAudioConsumer, ht]
      by_cases hp : a.producerId = pid
      · rw [if_pos hp]
        by_cases hc : a.closed = false
        · rw [if_pos hc]
          rfl
        · rw [if_neg hc]
      · rw [if_neg hp]
        simp only [List.map_cons, ih]

theorem resumeFirstAudio_video_map (l : List DownstreamTransport) (pid : String) :
    ((resumeFirstAudioConsumer l pid).1).map (fun t => t.video) =
      l.map (fun t => t.video) := by
  induction l with
  | nil => rfl
  | cons t ts ih =>
    cases ht : t.audio with
    | none =>
      by_cases hassoc : t.associatedAudioPid = some pid
      · simp only [resumeFirstAudioConsumer, if_pos hassoc, ht]
      · simp only [resumeFirstAudioConsumer, if_neg hassoc, List.map_cons, ih]
    | some a =>
      by_cases hassoc : t.associatedAudioPid = some pid
      · simp only [resumeFirstAudioConsumer, if_pos hassoc, ht]
        by_cases hc : a.closed = false
        · rw [if_pos hc]
          rfl
        · rw [if_neg hc]
      · simp only [resumeFirstAudioConsumer, if_neg hassoc, List.map_cons, ih]

theorem resumeFirstVideo_forall2 (l : List DownstreamTransport) (pid : String) :
    List.Forall₂ (fun t t' => noNewPauseOpt t.video t'.video) l
      (resumeFirstVideoConsumer l pid) := by
  induction l with
  | nil => exact .nil
  | cons t ts ih =>
    cases ht : t.video with
    | none =>
      by_cases hassoc : t.associatedAudioPid = some pid
      · simp only [resumeFirstVideoConsumer, if_pos hassoc, ht]
        exact .cons (noNewPauseOpt_refl _) (forall2_video_refl _)
      · simp only [resumeFirstVideoConsumer, if_neg hassoc]
        exact .cons (noNewPauseOpt_refl _) ih
    | some v =>
      by_cases hassoc : t.associatedAudioPid = some pid
      · simp only [resumeFirstVideoConsumer, if_pos hassoc, ht]
        by_cases hc : v.paused = true ∧ v.closed = false
        · rw [if_pos hc]
          refine .cons ?_ (forall2_video_refl _)
          intro x hx hp
          have hx' : some (resumeConsumer v) = some x := hx
          cases hx'
          cases hp
        · rw [if_neg hc]
          exact .cons (noNewPauseOpt_refl _) (forall2_video_refl _)
      · simp only [resumeFirstVideoConsumer, if_neg hassoc]
        exact .cons (noNewPauseOpt_refl _) ih

theorem resumeFirstVideo_audio_map (l : List DownstreamTransport) (pid : String) :
    (resumeFirstVideoConsumer l pid).map (fun t => (t.associatedAudioPid, t.audio)) =
      l.map (fun t => (t.associatedAudioPid, t.audio)) := by
  induction l with
  | nil => rfl
  | cons t ts ih =>
    by_cases hassoc : t.associatedAudioPid = some pid
    · cases ht : t.video with
      | none => simp only [resumeFirstVideoConsumer, if_pos hassoc, ht]
      | some v =>
        simp only [resumeFirstVideoConsumer, if_pos hassoc, ht]
        by_cases hc : v.paused = true ∧ v.closed = false
        · rw [if_pos hc]
          rfl
        · rw [if_neg hc]
    · simp only [resumeFirstVideoConsumer, if_neg hassoc, List.map_cons, ih]

theorem muteStep_video (c : Client) (pid : String) :
    (muteStep c pid).producer.video = c.producer.video ∧
    (muteStep c pid).producer.screenVideo = c.producer.screenVideo ∧
    (muteStep c pid).downstreamTransports.map (fun t => t.video) =
      c.downstreamTransports.map (fun t => t.video) := by
  cases ha : c.producer.audio with
  | none =>
    simp only [muteStep, ha]
    exact ⟨by trivial, by trivial, pauseFirst_video_map _ _⟩
  | some a =>
    simp only [muteStep, ha]
    by_cases hcond : a.id = pid ∧ a.closed = false
    · rw [if_pos hcond]
      exact ⟨by trivial, by trivial, by trivial⟩
    · rw [if_neg hcond]
      exact ⟨by trivial, by trivial, pauseFirst_video_map _ _⟩

theorem activeStep_video (c : Client) (pid : String) :
    (activeStep c pid).1.producer.video = c.producer.video ∧
    (activeStep c pid).1.producer.screenVideo = c.producer.screenVideo ∧
    (activeStep c pid).1.downstreamTransports.map (fun t => t.video) =
      c.downstreamTransports.map (fun t => t.video) := by
  cases ha : c.producer.audio with
  | none =>
    simp only [activeStep, ha]
    exact ⟨by trivial, by trivial, resumeFirstAudio_video_map _ _⟩
  | some a =>
    simp only [activeStep, ha]
    by_cases hcond : a.id = pid ∧ a.closed = false
    · rw [if_pos hcond]
      exact ⟨by trivial, by trivial, by trivial⟩
    · rw [if_neg hcond]
      exact ⟨by trivial, by trivial, resumeFirstAudio_video_map _ _⟩

theorem videoStep_guarantee (c : Client) (pid : String) :
    videoNoNewPause c (videoStep c pid) ∧
    (videoStep c pid).producer.audio = c.producer.audio ∧
    (videoStep c pid).downstreamTransports.map (fun t => (t.associatedAudioPid, t.audio)) =
      c.downstreamTransports.map (fun t => (t.associatedAudioPid, t.audio)) := by
  cases hv : c.producer.video with
  | none =>
    simp only [videoStep, hv]
    exact ⟨⟨by rw [hv]; intro x hx; exact absurd hx (by simp), rfl,
      resumeFirstVideo_forall2 _ _⟩, by trivial, resumeFirstVideo_audio_map _ _⟩
  | some v =>
    simp only [videoStep, hv]
    by_cases hown : ownsAudioPid c pid = true
    · rw [if_pos hown]
      by_cases hc : v.paused = true ∧ v.closed = false
      · rw [if_pos hc]
        refine ⟨⟨?_, rfl, forall2_video_refl _⟩, by trivial, by trivial⟩
        intro x hx hp
        have hx' : some (resumeProducer v) = some x := hx
        cases hx'
        cases hp
      · rw [if_neg hc]
        exact ⟨videoNoNewPause_refl c, by trivial, by trivial⟩
    · rw [if_neg hown]
      exact ⟨⟨by rw [hv]; intro x hx hp; exact ⟨x, hx, hp⟩, rfl,
        resumeFirstVideo_forall2 _ _⟩, by trivial, resumeFirstVideo_audio_map _ _⟩

theorem mutePhase_video (muted : List String) (c : Client) :
    (mutePhase muted c).producer.video = c.producer.video ∧
    (mutePhase muted c).producer.screenVideo = c.producer.screenVideo ∧
    (mutePhase muted c).downstreamTransports.map (fun t => t.video) =
      c.downstreamTransports.map (fun t => t.video) := by
  induction muted generalizing c with
  | nil => exact ⟨rfl, rfl, rfl⟩
  | cons pid rest ih =>
    obtain ⟨h1, h2, h3⟩ := muteStep_video c pid
    obtain ⟨g1, g2, g3⟩ := ih (muteStep c pid)
    exact ⟨g1.trans h1, g2.trans h2, g3.trans h3⟩

theorem audioPhase_video (active : List String) (c : Client) :
    (audioPhase active c).1.producer.video = c.producer.video ∧
    (audioPhase active c).1.producer.screenVideo = c.producer.screenVideo ∧
    (audioPhase active c).1.downstreamTransports.map (fun t => t.video) =
      c.downstreamTransports.map (fun t => t.video) := by
  induction active generalizing c with
  | nil => exact ⟨rfl, rfl, rfl⟩
  | cons pid rest ih =>
    obtain ⟨h1, h2, h3⟩ := activeStep_video c pid
    obtain ⟨g1, g2, g3⟩ := ih (activeStep c pid).1
    exact ⟨g1.trans h1, g2.trans h2, g3.trans h3⟩

theorem videoPhase_guarantee (active : List String) (c : Client) :
    videoNoNewPause c (videoPhase active c) := by
  induction active generalizing c with
  | nil => exact videoNoNewPause_refl c
  | cons pid rest ih =>
    exact videoNoNewPause_trans _ _ _ (videoStep_guarantee c pid).1 (ih (videoStep c pid))

theorem processClient_video (active muted : List String) (c : Client) :
    videoNoNewPause c (processClient active muted c).1 := by
  have h1 := mutePhase_video muted c
  have h2 := audioPhase_video active (mutePhase muted c)
  refine videoNoNewPause_trans _ _ _
    (videoNoNewPause_of_eqs _ _ (h2.1.trans h1.1) (h2.2.1.trans h1.2.1)
      (h2.2.2.trans h1.2.2)) ?_
  exact videoPhase_guarantee active (audioPhase active (mutePhase muted c)).1

theorem dsAudioKey_assoc {t t' : DownstreamTransport} (h : dsAudioKey t' = dsAudioKey t) :
    t'.associatedAudioPid = t.associatedAudioPid := congrArg Prod.fst h

theorem dsAudioKey_audio {t t' : DownstreamTransport} (h : dsAudioKey t' = dsAudioKey t) :
    t'.audio.map (fun a => (a.producerId, a.closed)) =
      t.audio.map (fun a => (a.producerId, a.closed)) := congrArg Prod.snd h

theorem audio_some_of_key {t t' : DownstreamTransport} (h : dsAudioKey t' = dsAudioKey t)
    {a' : Consumer} (ha' : t'.audio = some a') :
    ∃ a : Consumer, t.audio = some a ∧ a.producerId = a'.producerId ∧ a.closed = a'.closed := by
  have h2 := dsAudioKey_audio h
  rw [ha'] at h2
  cases ha : t.audio with
  | none =>
    rw [ha] at h2
    exact absurd h2 (by simp)
  | some a =>
    rw [ha] at h2
    simp only [Option.map_some', Option.some.injEq, Prod.mk.injEq] at h2
    exact ⟨a, rfl, h2.1.symm, h2.2.symm⟩

theorem audio_none_of_key {t t' : DownstreamTransport} (h : dsAudioKey t' = dsAudioKey t)
    (ha : t.audio = none) : t'.audio = none := by
  have h2 := dsAudioKey_audio h
  rw [ha] at h2
  cases ha' : t'.audio with
  | none => rfl
  | some a =>
    rw [ha'] at h2
    exact absurd h2 (by simp)

theorem coherent_of_key_map : ∀ (l l' : List DownstreamTransport),
    l'.map dsAudioKey = l.map dsAudioKey → listCoherent l → listCoherent l'
  | [], [], _, _ => by intro t ht; exact absurd ht (by simp)
  | [], _ :: _, h, _ => by simp at h
  | _ :: _, [], h, _ => by simp at h
  | t :: l, t' :: l', h, hco => by
    simp only [List.map_cons, List.cons.injEq] at h
    intro u hu a hau
    rcases List.mem_cons.mp hu with rfl | hu2
    · obtain ⟨a0, ha0, hpid, _⟩ := audio_some_of_key h.1 hau
      have hcoh := hco t (List.mem_cons_self _ _) a0 ha0
      rw [dsAudioKey_assoc h.1, hcoh, hpid]
    · exact coherent_of_key_map l l' h.2
        (fun v hv a2 ha2 => hco v (List.mem_cons_of_mem _ hv) a2 ha2) u hu2 a hau

theorem unique_of_key_map : ∀ (l l' : List DownstreamTransport),
    l'.map dsAudioKey = l.map dsAudioKey → uniqueAudioConsumers l → uniqueAudioConsumers l'
  | [], [], _, _ => List.Pairwise.nil
  | [], _ :: _, h, _ => by simp at h
  | _ :: _, [], h, _ => by simp at h
  | t :: l, t' :: l', h, hu => by
    simp only [List.map_cons, List.cons.injEq] at h
    refine List.pairwise_cons.mpr
      ⟨?_, unique_of_key_map l l' h.2 (List.pairwise_cons.mp hu).2⟩
    intro b' hb' a1' a2' ha1' ha2'
    have hmem : dsAudioKey b' ∈ l.map dsAudioKey :=
      h.2 ▸ List.mem_map_of_mem dsAudioKey hb'
    obtain ⟨b, hb, hkey⟩ := List.mem_map.mp hmem
    obtain ⟨a1, ha1, h1p, _⟩ := audio_some_of_key h.1 ha1'
    obtain ⟨a2, ha2, h2p, _⟩ := audio_some_of_key hkey.symm ha2'
    have hne := (List.pairwise_cons.mp hu).1 b hb a1 a2 ha1 ha2
    rw [← h1p, ← h2p]
    exact hne

theorem noConsumerFor_of_key_map : ∀ (l l' : List DownstreamTransport),
    l'.map dsAudioKey = l.map dsAudioKey → ∀ pid, noConsumerFor l pid → noConsumerFor l' pid
  | [], [], _, _, _ => by intro t ht; exact absurd ht (by simp)
  | [], _ :: _, h, _, _ => by simp at h
  | _ :: _, [], h, _, _ => by simp at h
  | t :: l, t' :: l', h, pid, hn => by
    simp only [List.map_cons, List.cons.injEq] at h
    intro u hu hassoc
    rcases List.mem_cons.mp hu with rfl | hu2
    · have hta : t.associatedAudioPid = some pid := (dsAudioKey_assoc h.1).symm.trans hassoc
      exact audio_none_of_key h.1 (hn t (List.mem_cons_self _ _) hta)
    · exact noConsumerFor_of_key_map l l' h.2 pid
        (fun v hv ha => hn v (List.mem_cons_of_mem _ hv) ha) u hu2 hassoc

theorem pausedFor_of_audio_map : ∀ (l l' : List DownstreamTransport),
    l'.map (fun t => t.audio) = l.map (fun t => t.audio) →
    ∀ pid, pausedConsumersFor l pid → pausedConsumersFor l' pid
  | [], [], _, _, _ => by intro t ht; exact absurd ht (by simp)
  | [], _ :: _, h, _, _ => by simp at h
  | _ :: _, [], h, _, _ => by simp at h
  | t :: l, t' :: l', h, pid, hp => by
    simp only [List.map_cons, List.cons.injEq] at h
    intro u hu a hau hpid hcl
    rcases List.mem_cons.mp hu with rfl | hmem
    · exact hp t (List.mem_cons_self _ _) a (h.1 ▸ hau) hpid hcl
    · exact pausedFor_of_audio_map l l' h.2 pid
        (fun v hv a2 ha2 => hp v (List.mem_cons_of_mem _ hv) a2 ha2) u hmem a hau hpid hcl

theorem key_map_of_pair_map : ∀ (l l' : List DownstreamTransport),
    l'.map (fun t => (t.associatedAudioPid, t.audio)) =
      l.map (fun t => (t.associatedAudioPid, t.audio)) →
    l'.map dsAudioKey = l.map dsAudioKey
  | [], [], _ => rfl
  | [], _ :: _, h => by simp at h
  | _ :: _, [], h => by simp at h
  | t :: l, t' :: l', h => by
    simp only [List.map_cons, List.cons.injEq] at h ⊢
    have h1 : t'.associatedAudioPid = t.associatedAudioPid := congrArg Prod.fst h.1
    have h2 : t'.audio = t.audio := congrArg Prod.snd h.1
    exact ⟨by simp [dsAudioKey, h1, h2], key_map_of_pair_map l l' h.2⟩

theorem audio_map_of_pair_map : ∀ (l l' : List DownstreamTransport),
    l'.map (fun t => (t.associatedAudioPid, t.audio)) =
      l.map (fun t => (t.associatedAudioPid, t.audio)) →
    l'.map (fun t => t.audio) = l.map (fun t => t.audio)
  | [], [], _ => rfl
  | [], _ :: _, h => by simp at h
  | _ :: _, [], h => by simp at h
  | t :: l, t' :: l', h => by
    simp only [List.map_cons, List.cons.injEq] at h ⊢
    exact ⟨congrArg Prod.snd h.1, audio_map_of_pair_map l l' h.2⟩

theorem pauseFirst_key_map (l : List DownstreamTransport) (pid : String) :
    (pauseFirstAudioConsumer l pid).map dsAudioKey = l.map dsAudioKey := by
  induction l with
  | nil => rfl
  | cons t ts ih =>
    cases ht : t.audio with
    | none => simp only [pauseFirstAudioConsumer, ht, List.map_cons, ih]
    | some a =>
      simp only [pauseFirstAudioConsumer, ht]
      by_cases hp : a.producerId = pid
      · rw [if_pos hp]
        by_cases hc : a.closed = false
        · rw [if_pos hc]
          simp only [List.map_cons]
          congr 1
          simp [dsAudioKey, pauseConsumer, ht]
        · rw [if_neg hc]
      · rw [if_neg hp]
        simp only [List.map_cons, ih]

theorem resumeFirstAudio_key_map (l : List DownstreamTransport) (pid : String) :
    ((resumeFirstAudioConsumer l pid).1).map dsAudioKey = l.map dsAudioKey := by
  induction l with
  | nil => rfl
  | cons t ts ih =>
    cases ht : t.audio with
    | none =>
      by_cases hassoc : t.associatedAudioPid = some pid
      · simp only [resumeFirstAudioConsumer, if_pos hassoc, ht]
      · simp only [resumeFirstAudioConsumer, if_neg hassoc, List.map_cons, ih]
    | some a =>
      by_cases hassoc : t.associatedAudioPid = some pid
      · simp only [resumeFirstAudioConsumer, if_pos hassoc, ht]
        by_cases hc : a.closed = false
        · rw [if_pos hc]
          simp only [List.map_cons]
          congr 1
          simp [dsAudioKey, resumeConsumer, ht]
        · rw [if_neg hc]
      · simp only [resumeFirstAudioConsumer, if_neg hassoc, List.map_cons, ih]

theorem pauseFirst_preserves_paused : ∀ (l : List DownstreamTransport) (q pid : String),
    pausedConsumersFor l pid → pausedConsumersFor (pauseFirstAudioConsumer l q) pid
  | [], _, _, _ => by intro t ht; simp [pauseFirstAudioConsumer] at ht
  | t :: ts, q, pid, hp => by
    have hphead : ∀ a : Consumer, t.audio = some a → a.producerId = pid →
        a.closed = false → a.paused = true :=
      fun a ha => hp t (List.mem_cons_self _ _) a ha
    have hptail : pausedConsumersFor ts pid :=
      fun u hu a ha => hp u (List.mem_cons_of_mem _ hu) a ha
    cases ht : t.audio with
    | none =>
      simp only [pauseFirstAudioConsumer, ht]
      intro u hu a hau hpid hcl
      rcases List.mem_cons.mp hu with rfl | hu2
      · exact hphead a hau hpid hcl
      · exact pauseFirst_preserves_paused ts q pid hptail u hu2 a hau hpid hcl
    | some a0 =>
      simp only [pauseFirstAudioConsumer, ht]
      by_cases hq : a0.producerId = q
      · rw [if_pos hq]
        by_cases hc : a0.closed = false
        · rw [if_pos hc]
          intro u hu a hau hpid hcl
          rcases List.mem_cons.mp hu with rfl | hu2
          · have h2 : some (pauseConsumer a0) = some a := hau
            injection h2 with h3
            rw [← h3]
            rfl
          · exact hptail u hu2 a hau hpid hcl
        · rw [if_neg hc]
          intro u hu a hau hpid hcl
          rcases List.mem_cons.mp hu with rfl | hu2
          · exact hphead a hau hpid hcl
          · exact hptail u hu2 a hau hpid hcl
      · rw [if_neg hq]
        intro u hu a hau hpid hcl
        rcases List.mem_cons.mp hu with rfl | hu2
        · exact hphead a hau hpid hcl
        · exact pauseFirst_preserves_paused ts q pid hptail u hu2 a hau hpid hcl

theorem pauseFirst_pauses : ∀ (l : List DownstreamTransport) (pid : String),
    uniqueAudioConsumers l → pausedConsumersFor (pauseFirstAudioConsumer l pid) pid
  | [], _, _ => by intro t ht; simp [pauseFirstAudioConsumer] at ht
  | t :: ts, pid, hu => by
    have hhead := (List.pairwise_cons.mp hu).1
    have htail := (List.pairwise_cons.mp hu).2
    cases ht : t.audio with
    | none =>
      simp only [pauseFirstAudioConsumer, ht]
      intro u hu2 a hau hpid hcl
      rcases List.mem_cons.mp hu2 with rfl | hmem
      · rw [ht] at hau
        exact absurd hau (by simp)
      · exact pauseFirst_pauses ts pid htail u hmem a hau hpid hcl
    | some a0 =>
      simp only [pauseFirstAudioConsumer, ht]
      by_cases hq : a0.producerId = pid
      · rw [if_pos hq]
        by_cases hc : a0.closed = false
        · rw [if_pos hc]
          intro u hu2 a hau hpid hcl
          rcases List.mem_cons.mp hu2 with rfl | hmem
          · have h2 : some (pauseConsumer a0) = some a := hau
            injection h2 with h3
            rw [← h3]
            rfl
          · exact absurd (hq.trans hpid.symm) (hhead u hmem a0 a ht hau)
        · rw [if_neg hc]
          intro u hu2 a hau hpid hcl
          rcases List.mem_cons.mp hu2 with rfl | hmem
          · rw [ht] at hau
            injection hau with h3
            rw [← h3] at hcl
            exact absurd hcl hc
          · exact absurd (hq.trans hpid.symm) (hhead u hmem a0 a ht hau)
      · rw [if_neg hq]
        intro u hu2 a hau hpid hcl
        rcases List.mem_cons.mp hu2 with rfl | hmem
        · rw [ht] at hau
          injection hau with h3
          rw [← h3] at hpid
          exact absurd hpid hq
        · exact pauseFirst_pauses ts pid htail u hmem a hau hpid hcl

theorem resumeFirstAudio_preserves_paused : ∀ (l : List DownstreamTransport) (q pid : String),
    q ≠ pid → listCoherent l → pausedConsumersFor l pid →
    pausedConsumersFor ((resumeFirstAudioConsumer l q).1) pid
  | [], _, _, _, _, _ => by intro t ht; simp [resumeFirstAudioConsumer] at ht
  | t :: ts, q, pid, hne, hco, hp => by
    have hphead : ∀ a : Consumer, t.audio = some a → a.producerId = pid →
        a.closed = false → a.paused = true :=
      fun a ha => hp t (List.mem_cons_self _ _) a ha
    have hptail : pausedConsumersFor ts pid :=
      fun u hu a ha => hp u (List.mem_cons_of_mem _ hu) a ha
    have hcotail : listCoherent ts :=
      fun u hu a ha => hco u (List.mem_cons_of_mem _ hu) a ha
    by_cases hassoc : t.associatedAudioPid = some q
    · cases ht : t.audio with
      | none =>
        simp only [resumeFirstAudioConsumer, if_pos hassoc, ht]
        intro u hu2 a hau hpid hcl
        rcases List.mem_cons.mp hu2 with rfl | hmem
        · exact hphead a hau hpid hcl
        · exact hptail u hmem a hau hpid hcl
      | some a0 =>
        simp only [resumeFirstAudioConsumer, if_pos hassoc, ht]
        have hq : a0.producerId = q := by
          have hcoh := (hco t (List.mem_cons_self _ _) a0 ht).symm.trans hassoc
          injection hcoh
        by_cases hcl0 : a0.closed = false
        · rw [if_pos hcl0]
          intro u hu2 a hau hpid hcl
          rcases List.mem_cons.mp hu2 with rfl | hmem
          · have h2 : some (resumeConsumer a0) = some a := hau
            injection h2 with h3
            rw [← h3] at hpid
            exact absurd (hq.symm.trans hpid) hne
          · exact hptail u hmem a hau hpid hcl
        · rw [if_neg hcl0]
          intro u hu2 a hau hpid hcl
          rcases List.mem_cons.mp hu2 with rfl | hmem
          · exact hphead a hau hpid hcl
          · exact hptail u hmem a hau hpid hcl
    · simp only [resumeFirstAudioConsumer, if_neg hassoc]
      intro u hu2 a hau hpid hcl
      rcases List.mem_cons.mp hu2 with rfl | hmem
      · exact hphead a hau hpid hcl
      · exact resumeFirstAudio_preserves_paused ts q pid hne hcotail hptail u hmem a hau hpid hcl

theorem resumeFirst_push : ∀ (l : List DownstreamTransport) (pid : String),
    noConsumerFor l pid → (resumeFirstAudioConsumer l pid).2 = true
  | [], _, _ => rfl
  | t :: ts, pid, hn => by
    by_cases hassoc : t.associatedAudioPid = some pid
    · have hnone := hn t (List.mem_cons_self _ _) hassoc
      simp only [resumeFirstAudioConsumer, if_pos hassoc, hnone]
    · simp only [resumeFirstAudioConsumer, if_neg hassoc]
      exact resumeFirst_push ts pid (fun u hu ha => hn u (List.mem_cons_of_mem _ hu) ha)

theorem muteStep_prodKey (c : Client) (q : String) :
    (muteStep c q).producer.audio.map (fun a => (a.id, a.closed)) =
      c.producer.audio.map (fun a => (a.id, a.closed)) ∧
    (muteStep c q).downstreamTransports.map dsAudioKey =
      c.downstreamTransports.map dsAudioKey := by
  cases ha : c.producer.audio with
  | none =>
    simp only [muteStep, ha]
    exact ⟨by trivial, pauseFirst_key_map _ _⟩
  | some a =>
    simp only [muteStep, ha]
    by_cases hcond : a.id = q ∧ a.closed = false
    · rw [if_pos hcond]
      exact ⟨by simp [pauseProducer], by trivial⟩
    · rw [if_neg hcond]
      exact ⟨by simp [ha], pauseFirst_key_map _ _⟩

theorem activeStep_prodKey (c : Client) (q : String) :
    (activeStep c q).1.producer.audio.map (fun a => (a.id, a.closed)) =
      c.producer.audio.map (fun a => (a.id, a.closed)) ∧
    (activeStep c q).1.downstreamTransports.map dsAudioKey =
      c.downstreamTransports.map dsAudioKey := by
  cases ha : c.producer.audio with
  | none =>
    simp only [activeStep, ha]
    exact ⟨by trivial, resumeFirstAudio_key_map _ _⟩
  | some a =>
    simp only [activeStep, ha]
    by_cases hcond : a.id = q ∧ a.closed = false
    · rw [if_pos hcond]
      exact ⟨by simp [resumeProducer], by trivial⟩
    · rw [if_neg hcond]
      exact ⟨by simp [ha], resumeFirstAudio_key_map _ _⟩

theorem nonOwn_of_prodKey {c c' : Client}
    (h : c'.producer.audio.map (fun a => (a.id, a.closed)) =
      c.producer.audio.map (fun a => (a.id, a.closed)))
    {pid : String} (hown : ∀ a : MediaObj, c.producer.audio = some a → a.id ≠ pid) :
    ∀ a : MediaObj, c'.producer.audio = some a → a.id ≠ pid := by
  intro a ha
  rw [ha] at h
  cases ha0 : c.producer.audio with
  | none =>
    rw [ha0] at h
    exact absurd h (by simp)
  | some a0 =>
    rw [ha0] at h
    simp only [Option.map_some', Option.some.injEq, Prod.mk.injEq] at h
    rw [h.1]
    exact hown a0 ha0

theorem muteStep_owner (c : Client) (q : String) (a : MediaObj)
    (ha : c.producer.audio = some a) (hid : a.id = q) (hcl : a.closed = false) :
    (muteStep c q).producer.audio = some (pauseProducer a) := by
  simp only [muteStep, ha, if_pos (And.intro hid hcl)]

theorem muteStep_nonmatch (c : Client) (q : String)
    (h : ∀ a : MediaObj, c.producer.audio = some a → ¬(a.id = q ∧ a.closed = false)) :
    (muteStep c q).producer.audio = c.producer.audio := by
  cases ha : c.producer.audio with
  | none => simp only [muteStep, ha]
  | some a => simp only [muteStep, ha, if_neg (h a ha)]

theorem activeStep_nonmatch (c : Client) (q : String)
    (h : ∀ a : MediaObj, c.producer.audio = some a → a.id ≠ q) :
    (activeStep c q).1.producer.audio = c.producer.audio := by
  cases ha : c.producer.audio with
  | none => simp only [activeStep, ha]
  | some a =>
    have hng : ¬(a.id = q ∧ a.closed = false) := fun hc => h a ha hc.1
    simp only [activeStep, ha, if_neg hng]

theorem mutePhase_paused_stable : ∀ (muted : List String) (c : Client) (a : MediaObj),
    c.producer.audio = some a → a.paused = true →
    (mutePhase muted c).producer.audio = some a
  | [], _, _, ha, _ => ha
  | q :: rest, c, a, ha, hp => by
    by_cases hcond : a.id = q ∧ a.closed = false
    · have h1 : (muteStep c q).producer.audio = some (pauseProducer a) :=
        muteStep_owner c q a ha hcond.1 hcond.2
      have hpa : pauseProducer a = a := by
        cases a
        simp_all [pauseProducer]
      rw [hpa] at h1
      exact mutePhase_paused_stable rest (muteStep c q) a h1 hp
    · have h1 : (muteStep c q).producer.audio = some a :=
        (muteStep_nonmatch c q (fun a' ha' => by
          rw [ha] at ha'
          injection ha' with h2
          rw [← h2]
          exact hcond)).trans ha
      exact mutePhase_paused_stable rest (muteStep c q) a h1 hp

theorem mutePhase_mutes : ∀ (muted : List String) (c : Client) (a : MediaObj),
    c.producer.audio = some a → a.closed = false → a.id ∈ muted →
    (mutePhase muted c).producer.audio = some (pauseProducer a)
  | [], _, _, _, _, hmem => absurd hmem (by simp)
  | q :: rest, c, a, ha, hcl, hmem => by
    by_cases hq : a.id = q
    · have h1 := muteStep_owner c q a ha hq hcl
      exact mutePhase_paused_stable rest (muteStep c q) (pauseProducer a) h1 rfl
    · have h1 : (muteStep c q).producer.audio = some a :=
        (muteStep_nonmatch c q (fun a' ha' => by
          rw [ha] at ha'
          injection ha' with h2
          rw [← h2]
          exact fun hc => hq hc.1)).trans ha
      have hmem2 : a.id ∈ rest := by
        rcases List.mem_cons.mp hmem with h | h
        · exact absurd h hq
        · exact h
      exact mutePhase_mutes rest (muteStep c q) a h1 hcl hmem2

theorem audioPhase_prodAudio : ∀ (active : List String) (c : Client),
    (∀ a : MediaObj, c.producer.audio = some a → ∀ q ∈ active, a.id ≠ q) →
    (audioPhase active c).1.producer.audio = c.producer.audio
  | [], _, _ => rfl
  | q :: rest, c, h => by
    have h1 : (activeStep c q).1.producer.audio = c.producer.audio :=
      activeStep_nonmatch c q (fun a ha => h a ha q (List.mem_cons_self _ _))
    have h2 := audioPhase_prodAudio rest (activeStep c q).1 (fun a ha q' hq' =>
      h a (h1 ▸ ha) q' (List.mem_cons_of_mem _ hq'))
    simp only [audioPhase]
    exact h2.trans h1

theorem mutePhase_prodKey : ∀ (muted : List String) (c : Client),
    (mutePhase muted c).producer.audio.map (fun a => (a.id, a.closed)) =
      c.producer.audio.map (fun a => (a.id, a.closed)) ∧
    (mutePhase muted c).downstreamTransports.map dsAudioKey =
      c.downstreamTransports.map dsAudioKey
  | [], _ => ⟨rfl, rfl⟩
  | q :: rest, c => by
    obtain ⟨h1, h2⟩ := muteStep_prodKey c q
    obtain ⟨g1, g2⟩ := mutePhase_prodKey rest (muteStep c q)
    exact ⟨g1.trans h1, g2.trans h2⟩

theorem audioPhase_prodKey : ∀ (active : List String) (c : Client),
    (audioPhase active c).1.producer.audio.map (fun a => (a.id, a.closed)) =
      c.producer.audio.map (fun a => (a.id, a.closed)) ∧
    (audioPhase active c).1.downstreamTransports.map dsAudioKey =
      c.downstreamTransports.map dsAudioKey
  | [], _ => ⟨rfl, rfl⟩
  | q :: rest, c => by
    obtain ⟨h1, h2⟩ := activeStep_prodKey c q
    obtain ⟨g1, g2⟩ := audioPhase_prodKey rest (activeStep c q).1
    simp only [audioPhase]
    exact ⟨g1.trans h1, g2.trans h2⟩

theorem videoPhase_audio_pair : ∀ (active : List String) (c : Client),
    (videoPhase active c).producer.audio = c.producer.audio ∧
    (videoPhase active c).downstreamTransports.map
        (fun t => (t.associatedAudioPid, t.audio)) =
      c.downstreamTransports.map (fun t => (t.associatedAudioPid, t.audio))
  | [], _ => ⟨rfl, rfl⟩
  | q :: rest, c => by
    obtain ⟨_, h1, h2⟩ := videoStep_guarantee c q
    obtain ⟨g1, g2⟩ := videoPhase_audio_pair rest (videoStep c q)
    exact ⟨g1.trans h1, g2.trans h2⟩

theorem mutePhase_preserves_paused : ∀ (muted : List String) (c : Client) (pid : String),
    pausedConsumersFor c.downstreamTransports pid →
    pausedConsumersFor (mutePhase muted c).downstreamTransports pid
  | [], _, _, hp => hp
  | q :: rest, c, pid, hp => by
    have hp2 : pausedConsumersFor (muteStep c q).downstreamTransports pid := by
      cases ha : c.producer.audio with
      | none =>
        simp only [muteStep, ha]
        exact pauseFirst_preserves_paused _ q pid hp
      | some a =>
        by_cases hcond : a.id = q ∧ a.closed = false
        · simp only [muteStep, ha, if_pos hcond]
          exact hp
        · simp only [muteStep, ha, if_neg hcond]
          exact pauseFirst_preserves_paused _ q pid hp
    exact mutePhase_preserves_paused rest (muteStep c q) pid hp2

theorem muteStep_ds_cases (c : Client) (q : String) :
    (muteStep c q).downstreamTransports = c.downstreamTransports ∨
    (muteStep c q).downstreamTransports = pauseFirstAudioConsumer c.downstreamTransports q := by
  cases ha : c.producer.audio with
  | none =>
    right
    simp only [muteStep, ha]
  | some a =>
    by_cases hcond : a.id = q ∧ a.closed = false
    · left
      simp only [muteStep, ha, if_pos hcond]
    · right
      simp only [muteStep, ha, if_neg hcond]

theorem activeStep_ds_cases (c : Client) (q : String) :
    (activeStep c q).1.downstreamTransports = c.downstreamTransports ∨
    (activeStep c q).1.downstreamTransports =
      (resumeFirstAudioConsumer c.downstreamTransports q).1 := by
  cases ha : c.producer.audio with
  | none =>
    right
    simp only [activeStep, ha]
  | some a =>
    by_cases hcond : a.id = q ∧ a.closed = false
    · left
      simp only [activeStep, ha, if_pos hcond]
    · right
      simp only [activeStep, ha, if_neg hcond]

theorem mutePhase_pausesConsumers : ∀ (muted : List String) (c : Client) (pid : String),
    pid ∈ muted → (∀ a : MediaObj, c.producer.audio = some a → a.id ≠ pid) →
    uniqueAudioConsumers c.downstreamTransports →
    pausedConsumersFor (mutePhase muted c).downstreamTransports pid
  | [], _, _, hmem, _, _ => absurd hmem (by simp)
  | q :: rest, c, pid, hmem, hown, huniq => by
    by_cases hq : q = pid
    · subst hq
      have hds : (muteStep c q).downstreamTransports =
          pauseFirstAudioConsumer c.downstreamTransports q := by
        cases ha : c.producer.audio with
        | none => simp only [muteStep, ha]
        | some a =>
          have hng : ¬(a.id = q ∧ a.closed = false) := fun hc => hown a ha hc.1
          simp only [muteStep, ha, if_neg hng]
      have hp1 : pausedConsumersFor (muteStep c q).downstreamTransports q := by
        rw [hds]
        exact pauseFirst_pauses _ q huniq
      exact mutePhase_preserves_paused rest (muteStep c q) q hp1
    · have hkey := muteStep_prodKey c q
      have hmem2 : pid ∈ rest := by
        rcases List.mem_cons.mp hmem with h | h
        · exact absurd h.symm hq
        · exact h
      exact mutePhase_pausesConsumers rest (muteStep c q) pid hmem2
        (nonOwn_of_prodKey hkey.1 hown) (unique_of_key_map _ _ hkey.2 huniq)

theorem audioPhase_preserves_paused : ∀ (active : List String) (c : Client) (pid : String),
    (∀ q ∈ active, q ≠ pid) → listCoherent c.downstreamTransports →
    pausedConsumersFor c.downstreamTransports pid →
    pausedConsumersFor (audioPhase active c).1.downstreamTransports pid
  | [], _, _, _, _, hp => hp
  | q :: rest, c, pid, hne, hco, hp => by
    have hds := activeStep_ds_cases c q
    have hp2 : pausedConsumersFor (activeStep c q).1.downstreamTransports pid := by
      rcases hds with h | h
      · rw [h]
        exact hp
      · rw [h]
        exact resumeFirstAudio_preserves_paused _ q pid
          (hne q (List.mem_cons_self _ _)) hco hp
    have hco2 : listCoherent (activeStep c q).1.downstreamTransports :=
      coherent_of_key_map _ _ (activeStep_prodKey c q).2 hco
    simp only [audioPhase]
    exact audioPhase_preserves_paused rest (activeStep c q).1 pid
      (fun q' hq' => hne q' (List.mem_cons_of_mem _ hq')) hco2 hp2

theorem audioPhase_needs : ∀ (active : List String) (c : Client) (pid : String),
    pid ∈ active →
    (∀ a : MediaObj, c.producer.audio = some a → a.id ≠ pid) →
    noConsumerFor c.downstreamTransports pid →
    pid ∈ (audioPhase active c).2
  | [], _, _, hmem, _, _ => absurd hmem (by simp)
  | q :: rest, c, pid, hmem, hown, hno => by
    by_cases hq : q = pid
    · subst hq
      have hres : (activeStep c q).2 = true := by
        cases ha : c.producer.audio with
        | none =>
          simp only [activeStep, ha]
          exact resumeFirst_push _ q hno
        | some a =>
          have hng : ¬(a.id = q ∧ a.closed = false) := fun hc => hown a ha hc.1
          simp only [activeStep, ha, if_neg hng]
          exact resumeFirst_push _ q hno
      simp only [audioPhase, hres]
      simp
    · have hkey := activeStep_prodKey c q
      have hmem2 : pid ∈ rest := by
        rcases List.mem_cons.mp hmem with h | h
        · exact absurd h.symm hq
        · exact h
      have hrec := audioPhase_needs rest (activeStep c q).1 pid hmem2
        (nonOwn_of_prodKey hkey.1 hown)
        (noConsumerFor_of_key_map _ _ hkey.2 pid hno)
      simp only [audioPhase]
      exact List.mem_append_right _ hrec

theorem take_drop_disjoint {l : List String} (h : l.Nodup) (n : Nat) :
    ∀ x ∈ l.take n, x ∉ l.drop n := by
  intro x hx hd
  rw [← List.take_append_drop n l, List.nodup_append] at h
  exact h.2.2 hx hd

/-- C4: one run of the active-speaker reconciliation over a room processes
every client with `processClient`; for such a peer (with coherent, duplicate
free downstream transports, over a duplicate-free speaker list) the engine
never pauses any video producer or video consumer; every pid beyond the first
`maxAS` entries gets the peer's matching open owned audio producer paused, or
else (non-owning peer) every open downstream audio consumer for it paused;
and every pid of the top `maxAS` for which a non-owning peer has no downstream
audio consumer at all is reported in that peer's new-transport list. -/
theorem c4_active_speaker_reconciliation (maxAS : Nat) (room : Room) (c : Client)
    (hc : c ∈ room.clients)
    (hnodup : room.activeSpeakerList.Nodup)
    (hco : listCoherent c.downstreamTransports)
    (huniq : uniqueAudioConsumers c.downstreamTransports) :
    (updateActiveSpeakers maxAS room).1.clients = room.clients.map (fun d =>
      (processClient (room.activeSpeakerList.take maxAS)
        (room.activeSpeakerList.drop maxAS) d).1) ∧
    videoNoNewPause c (processClient (room.activeSpeakerList.take maxAS)
      (room.activeSpeakerList.drop maxAS) c).1 ∧
    (∀ pid ∈ room.activeSpeakerList.drop maxAS,
      (∀ a : MediaObj, c.producer.audio = some a → a.id = pid → a.closed = false →
        (processClient (room.activeSpeakerList.take maxAS)
          (room.activeSpeakerList.drop maxAS) c).1.producer.audio =
            some (pauseProducer a)) ∧
      (nonOwning c pid →
        pausedConsumersFor (processClient (room.activeSpeakerList.take maxAS)
          (room.activeSpeakerList.drop maxAS) c).1.downstreamTransports pid)) ∧
    (∀ pid ∈ room.activeSpeakerList.take maxAS,
      nonOwning c pid → noConsumerFor c.downstreamTransports pid →
      pid ∈ (processClient (room.activeSpeakerList.take maxAS)
        (room.activeSpeakerList.drop maxAS) c).2 ∧
      ∃ reqs, (c.socketId, reqs) ∈ (updateActiveSpeakers maxAS room).2.1 ∧
        pid ∈ reqs) := by
  set active := room.activeSpeakerList.take maxAS with hactive
  set muted := room.activeSpeakerList.drop maxAS with hmuted
  have hdisj : ∀ x ∈ muted, x ∉ active := by
    intro x hx hxa
    exact take_drop_disjoint hnodup maxAS x hxa hx
  refine ⟨?_, processClient_video active muted c, ?_, ?_⟩
  · simp only [updateActiveSpeakers, List.map_map]
    rfl
  · intro pid hpidmem
    constructor
    · intro a ha hid hcl
      have hidmem : a.id ∈ muted := by
        rw [hid]
        exact hpidmem
      have h1 := mutePhase_mutes muted c a ha hcl hidmem
      have hown2 : ∀ a' : MediaObj, (mutePhase muted c).producer.audio = some a' →
          ∀ q ∈ active, a'.id ≠ q := by
        intro a' ha' q hq hEq
        rw [h1] at ha'
        injection ha' with h2
        rw [← h2] at hEq
        have hqa : a.id = q := hEq
        exact hdisj q (hqa ▸ hidmem) hq
      have h2 := audioPhase_prodAudio active (mutePhase muted c) hown2
      have h3 := (videoPhase_audio_pair active (audioPhase active (mutePhase muted c)).1).1
      show (processClient active muted c).1.producer.audio = some (pauseProducer a)
      simp only [processClient]
      exact h3.trans (h2.trans h1)
    · intro hown
      have hpm := mutePhase_pausesConsumers muted c pid hpidmem hown huniq
      have hco1 : listCoherent (mutePhase muted c).downstreamTransports :=
        coherent_of_key_map _ _ (mutePhase_prodKey muted c).2 hco
      have hne : ∀ q ∈ active, q ≠ pid := by
        intro q hq hEq
        exact hdisj pid hpidmem (hEq ▸ hq)
      have hap := audioPhase_preserves_paused active (mutePhase muted c) pid hne hco1 hpm
      have hvp := pausedFor_of_audio_map _ _
        (audio_map_of_pair_map _ _
          (videoPhase_audio_pair active (audioPhase active (mutePhase muted c)).1).2)
        pid hap
      simp only [processClient]
      exact hvp
  · intro pid hpidmem hown hno
    have hkey := mutePhase_prodKey muted c
    have hneed := audioPhase_needs active (mutePhase muted c) pid hpidmem
      (nonOwn_of_prodKey hkey.1 hown)
      (noConsumerFor_of_key_map _ _ hkey.2 pid hno)
    have hmemp : pid ∈ (processClient active muted c).2 := by
      simp only [processClient]
      exact hneed
    refine ⟨hmemp, (processClient active muted c).2, ?_, hmemp⟩
    have hmemres : (c.socketId, processClient active muted c) ∈
        room.clients.map (fun d => (d.socketId, processClient active muted d)) :=
      List.mem_map_of_mem _ hc
    have hfilter : (c.socketId, processClient active muted c) ∈
        (room.clients.map (fun d => (d.socketId, processClient active muted d))).filter
          (fun r => !r.2.2.isEmpty) := by
      refine List.mem_filter.mpr ⟨hmemres, ?_⟩
      show (!(processClient active muted c).2.isEmpty) = true
      cases hl : (processClient active muted c).2 with
      | nil =>
        rw [hl] at hmemp
        exact absurd hmemp (by simp)
      | cons x xs => simp
    simp only [updateActiveSpeakers]
    exact List.mem_map_of_mem _ hfilter

/-- The C4 theorem at the concrete one-client room: the peer is a member, the
speaker list is duplicate free, and the engine pauses the peer's own open
audio producer `PB`, which sits beyond the `maxActiveSpeakers = 1` window. -/
theorem c4_active_speaker_reconciliation_witness :
    clientB ∈ roomExample.clients ∧
    roomExample.activeSpeakerList.Nodup ∧
    (processClient (roomExample.activeSpeakerList.take 1)
      (roomExample.activeSpeakerList.drop 1) clientB).1.producer.audio =
      some (pauseProducer { id := "PB", closed := false, paused := false }) := by
  have h := c4_active_speaker_reconciliation 1 roomExample clientB
    (by simp [roomExample, clientB])
    (by decide)
    (fun t ht => absurd ht (by simp [clientB]))
    (by exact List.Pairwise.nil)
  refine ⟨by simp [roomExample, clientB], by decide, ?_⟩
  exact (h.2.2.1 "PB" (by decide)).1
    { id := "PB", closed := false, paused := false } rfl rfl rfl

theorem findIdx_zero_of_head (l : List String) (pid : String)
    (h : l.head? = some pid) : l.findIdx? (fun x => x == pid) = some 0 := by
  cases l with
  | nil => exact absurd h (by simp)
  | cons x xs =>
    have hx : x = pid := by
      have h2 : some x = some pid := h
      injection h2
    rw [List.findIdx?_cons, if_pos (by simp [hx])]

theorem head_of_findIdx_zero (l : List String) (pid : String)
    (h : l.findIdx? (fun x => x == pid) = some 0) : l.head? = some pid := by
  cases l with
  | nil => exact absurd h (by simp)
  | cons x xs =>
    rw [List.findIdx?_cons] at h
    by_cases hx : (x == pid) = true
    · rw [eq_of_beq hx]
      rfl
    · rw [if_neg hx, List.findIdx?_succ] at h
      cases hj : xs.findIdx? (fun x => x == pid) with
      | none =>
        rw [hj] at h
        exact absurd h (by simp)
      | some j =>
        rw [hj] at h
        simp at h

theorem eraseIdx_eq_erase : ∀ (l : List String) (pid : String) (i : Nat),
    l.findIdx? (fun x => x == pid) = some i → l.eraseIdx i = l.erase pid
  | [], _, _, h => absurd h (by simp)
  | x :: xs, pid, i, h => by
    by_cases hx : (x == pid) = true
    · rw [List.findIdx?_cons, if_pos hx] at h
      injection h with h0
      rw [← h0, List.eraseIdx_cons_zero, List.erase_cons, if_pos hx]
    · rw [List.findIdx?_cons, if_neg hx, List.findIdx?_succ] at h
      cases hj : xs.findIdx? (fun x => x == pid) with
      | none =>
        rw [hj] at h
        exact absurd h (by simp)
      | some j =>
        rw [hj] at h
        simp only [Option.map_some'] at h
        injection h with h1
        rw [← h1, List.eraseIdx_cons_succ, List.erase_cons, if_neg hx]
        exact congrArg (List.cons x) (eraseIdx_eq_erase xs pid j hj)

theorem erase_eq_self_of_findIdx_none (l : List String) (pid : String)
    (h : l.findIdx? (fun x => x == pid) = none) : l.erase pid = l := by
  refine List.erase_of_not_mem ?_
  intro hmem
  have := List.findIdx?_eq_none_iff.mp h pid hmem
  simp at this

theorem runDominantUpdate_room (maxAS : Nat) (room1 : Room) :
    (runDominantUpdate maxAS room1).1 = (updateActiveSpeakers maxAS room1).1 := by
  rw [runDominantUpdate]
  by_cases h : (updateActiveSpeakers maxAS room1).2.1.isEmpty = true
  · rw [if_pos h]
  · rw [if_neg h]

theorem runDominantUpdate_emissions (maxAS : Nat) (room1 : Room)
    (h : (updateActiveSpeakers maxAS room1).2.1 = []) :
    ∀ e ∈ (runDominantUpdate maxAS room1).2,
      e = .updateActiveSpeakers room1.roomId (room1.activeSpeakerList.take maxAS) := by
  have hEmpty : (updateActiveSpeakers maxAS room1).2.1.isEmpty = true := by
    rw [h]
    rfl
  rw [runDominantUpdate, if_pos hEmpty]
  intro e he
  rcases List.mem_append.mp he with h1 | h1
  · have h2 : (updateActiveSpeakers maxAS room1).2.2 =
        [Emission.updateActiveSpeakers room1.roomId
          (room1.activeSpeakerList.take maxAS)] := rfl
    rw [h2] at h1
    simpa using h1
  · have h3 : (updateActiveSpeakers maxAS room1).1.roomId = room1.roomId := rfl
    have h4 : (updateActiveSpeakers maxAS room1).1.activeSpeakerList =
        room1.activeSpeakerList := rfl
    rw [h3, h4] at h1
    simpa using h1

theorem updateActiveSpeakers_list (maxAS : Nat) (room1 : Room) :
    (updateActiveSpeakers maxAS room1).1.activeSpeakerList =
      room1.activeSpeakerList := rfl

/-- C5: on a dominant-speaker event for producer id `pid`, if `pid` already
heads `activeSpeakerList` the handler returns the room unchanged with no
emission; otherwise `pid` is moved (or inserted) to index 0 with the other
entries' relative order kept (`pid :: list.erase pid`), the engine is re-run
over the re-ranked room, and when the engine reports no new transport
requirements every emission of the call is the truncated list to the room. -/
theorem c5_dominant_speaker_promotion (maxAS : Nat) (room : Room) (pid : String) :
    (room.activeSpeakerList.head? = some pid →
      handleNewDominantSpeaker maxAS room pid = (room, [])) ∧
    (room.activeSpeakerList.head? ≠ some pid →
      (handleNewDominantSpeaker maxAS room pid).1.activeSpeakerList =
        pid :: room.activeSpeakerList.erase pid ∧
      (handleNewDominantSpeaker maxAS room pid).1.clients =
        (updateActiveSpeakers maxAS
          { room with activeSpeakerList := pid :: room.activeSpeakerList.erase pid }).1.clients ∧
      ((updateActiveSpeakers maxAS
          { room with activeSpeakerList := pid :: room.activeSpeakerList.erase pid }).2.1 = [] →
        ∀ e ∈ (handleNewDominantSpeaker maxAS room pid).2,
          e = .updateActiveSpeakers room.roomId
            ((pid :: room.activeSpeakerList.erase pid).take maxAS))) := by
  constructor
  · intro h
    simp only [handleNewDominantSpeaker, findIdx_zero_of_head _ _ h]
  · intro hne
    cases hidx : room.activeSpeakerList.findIdx? (fun x => x == pid) with
    | none =>
      have herase : room.activeSpeakerList.erase pid = room.activeSpeakerList :=
        erase_eq_self_of_findIdx_none _ _ hidx
      have hhandle : handleNewDominantSpeaker maxAS room pid =
          runDominantUpdate maxAS
            { room with activeSpeakerList := pid :: room.activeSpeakerList.erase pid } := by
        simp only [handleNewDominantSpeaker, hidx, herase]
      rw [hhandle]
      refine ⟨?_, ?_, ?_⟩
      · rw [runDominantUpdate_room, updateActiveSpeakers_list]
      · rw [runDominantUpdate_room]
      · intro hEmpty e he
        exact runDominantUpdate_emissions maxAS _ hEmpty e he
    | some i =>
      cases i with
      | zero => exact absurd (head_of_findIdx_zero _ _ hidx) hne
      | succ i =>
        have herase : room.activeSpeakerList.eraseIdx (i + 1) =
            room.activeSpeakerList.erase pid :=
          eraseIdx_eq_erase _ _ _ hidx
        have hhandle : handleNewDominantSpeaker maxAS room pid =
            runDominantUpdate maxAS
              { room with activeSpeakerList := pid :: room.activeSpeakerList.erase pid } := by
          simp only [handleNewDominantSpeaker, hidx, herase]
        rw [hhandle]
        refine ⟨?_, ?_, ?_⟩
        · rw [runDominantUpdate_room, updateActiveSpeakers_list]
        · rw [runDominantUpdate_room]
        · intro hEmpty e he
          exact runDominantUpdate_emissions maxAS _ hEmpty e he

/-- The C5 theorem at the concrete room: `PB` is not at the head, the handler
promotes it to index 0 preserving `PA`, and the only peer owns `PB`, so no new
transports are required and every emission is the truncated list. -/
theorem c5_dominant_speaker_promotion_witness :
    roomExample.activeSpeakerList.head? ≠ some "PB" ∧
    (handleNewDominantSpeaker 1 roomExample "PB").1.activeSpeakerList =
      "PB" :: roomExample.activeSpeakerList.erase "PB" ∧
    ∀ e ∈ (handleNewDominantSpeaker 1 roomExample "PB").2,
      e = .updateActiveSpeakers roomExample.roomId
        (("PB" :: roomExample.activeSpeakerList.erase "PB").take 1) := by
  have h := (c5_dominant_speaker_promotion 1 roomExample "PB").2 (by decide)
  exact ⟨by decide, h.1, h.2.2 (by decide)⟩

end Speakers

end TdSecret
